import Mathlib

/-!
Verification of the CloudEvents Avro codec (envelope codec `ToAvro` / `FromAvro`
in `binding/format/avro/v2/avro.go`, payload codec `EncodeData` / `DecodeData` /
`getSchemaFor`).  The Go code is shallowly embedded: Go's dynamically typed
attribute values become inductive types, Go maps become association lists with
replace-on-insert, fallible operations return `Except String`, and the external
collaborators (the Avro schema engine and the JSON serializer) are explicit
function parameters.  Timestamp formatting and parsing (Go `time.Format` /
`time.Parse` with the RFC 3339 layouts) are modelled concretely, since the
round-trip property of the codec depends on them.
-/

namespace AvroCE

/-! ## Decimal digit printing and reading (RFC 3339 components) -/

/-- The ASCII digit character for `n < 10`. -/
def digitOf (n : Nat) : Char := Char.ofNat (48 + n)

/-- Numeric value of an ASCII digit character. -/
def valOf (c : Char) : Nat := c.toNat - 48

/-- Zero-padded fixed-width decimal printing, most significant digit first.
Mirrors Go's fixed-width date/time components (`2006`, `01`, `15`, ...). -/
def pad : Nat → Nat → List Char
  | 0, _ => []
  | w+1, n => pad w (n / 10) ++ [digitOf (n % 10)]

/-- Value of a digit string. -/
def digitsToNat (cs : List Char) : Nat := cs.foldl (fun a c => a * 10 + valOf c) 0

theorem valOf_digitOf {d : Nat} (h : d < 10) : valOf (digitOf d) = d := by
  interval_cases d <;> decide

theorem isDigit_digitOf {d : Nat} (h : d < 10) : (digitOf d).isDigit = true := by
  interval_cases d <;> decide

theorem length_pad (w n : Nat) : (pad w n).length = w := by
  induction w generalizing n with
  | zero => simp [pad]
  | succ w ih => simp [pad, ih]

theorem mem_pad_isDigit (w n : Nat) : ∀ c ∈ pad w n, c.isDigit = true := by
  induction w generalizing n with
  | zero => simp [pad]
  | succ w ih =>
    intro c hc
    simp only [pad, List.mem_append, List.mem_singleton] at hc
    rcases hc with hc | hc
    · exact ih _ _ hc
    · subst hc; exact isDigit_digitOf (Nat.mod_lt _ (by omega))

theorem foldl_pad (w n a : Nat) (h : n < 10 ^ w) :
    (pad w n).foldl (fun a c => a * 10 + valOf c) a = a * 10 ^ w + n := by
  induction w generalizing n a with
  | zero =>
    have : n = 0 := by simpa using h
    simp [pad, this]
  | succ w ih =>
    have hdiv : n / 10 < 10 ^ w := by
      rw [pow_succ] at h
      omega
    have hmod : n % 10 < 10 := Nat.mod_lt _ (by omega)
    simp only [pad, List.foldl_append, List.foldl_cons, List.foldl_nil]
    rw [ih _ _ hdiv, valOf_digitOf hmod, pow_succ]
    have key : (a * 10 ^ w + n / 10) * 10 + n % 10
        = a * (10 ^ w * 10) + (n / 10 * 10 + n % 10) := by ring
    rw [key]
    congr 1
    omega

theorem digitsToNat_pad (w n : Nat) (h : n < 10 ^ w) : digitsToNat (pad w n) = n := by
  have := foldl_pad w n 0 h
  simpa [digitsToNat] using this

/-- Read exactly `w` decimal digits from the front of the character list. -/
def readFixed (w : Nat) (cs : List Char) : Option (Nat × List Char) :=
  if (cs.take w).length = w ∧ (cs.take w).all Char.isDigit = true then
    some (digitsToNat (cs.take w), cs.drop w)
  else none

/-- Read one expected literal character. -/
def readLit (c : Char) : List Char → Option (List Char)
  | [] => none
  | c' :: rest => if c' = c then some rest else none

theorem take_append_of_length {α : Type} (l rest : List α) (w : Nat) (h : l.length = w) :
    (l ++ rest).take w = l := by
  subst h
  simp [List.take_left]

theorem drop_append_of_length {α : Type} (l rest : List α) (w : Nat) (h : l.length = w) :
    (l ++ rest).drop w = rest := by
  subst h
  simp [List.drop_left]

theorem readFixed_pad (w n : Nat) (rest : List Char) (h : n < 10 ^ w) :
    readFixed w (pad w n ++ rest) = some (n, rest) := by
  have htake : (pad w n ++ rest).take w = pad w n :=
    take_append_of_length _ _ _ (length_pad w n)
  have hdrop : (pad w n ++ rest).drop w = rest :=
    drop_append_of_length _ _ _ (length_pad w n)
  have hcond : ((pad w n ++ rest).take w).length = w
      ∧ ((pad w n ++ rest).take w).all Char.isDigit = true := by
    rw [htake]
    refine ⟨length_pad w n, ?_⟩
    rw [List.all_eq_true]
    intro c hc
    exact mem_pad_isDigit w n c hc
  rw [readFixed, if_pos hcond, htake, hdrop, digitsToNat_pad w n h]

theorem readLit_cons (c : Char) (rest : List Char) : readLit c (c :: rest) = some rest := by
  simp [readLit]

/-! ## Fractional seconds

Go's RFC 3339 Nano layout (`.999999999`) prints the nanosecond field with
trailing zeros removed and omits it entirely when it is zero.  `stripCount`
computes the value with its trailing decimal zeros removed together with the
number of zeros removed. -/

def stripCount : Nat → Nat → Nat × Nat
  | 0, m => (m, 0)
  | fuel+1, m =>
    if m % 10 = 0 then
      ((stripCount fuel (m / 10)).1, (stripCount fuel (m / 10)).2 + 1)
    else (m, 0)

theorem stripCount_spec (fuel : Nat) : ∀ m : Nat, m ≠ 0 → m < 10 ^ fuel →
    (stripCount fuel m).1 * 10 ^ (stripCount fuel m).2 = m
    ∧ (stripCount fuel m).1 % 10 ≠ 0
    ∧ (stripCount fuel m).1 ≠ 0
    ∧ (stripCount fuel m).1 < 10 ^ (fuel - (stripCount fuel m).2)
    ∧ (stripCount fuel m).2 ≤ fuel := by
  induction fuel with
  | zero =>
    intro m hm hlt
    simp at hlt
    omega
  | succ fuel ih =>
    intro m hm hlt
    by_cases h10 : m % 10 = 0
    · have hdiv : m / 10 ≠ 0 := by omega
      have hdivlt : m / 10 < 10 ^ fuel := by
        rw [pow_succ] at hlt
        omega
      obtain ⟨h1, h2, h3, h4, h5⟩ := ih (m / 10) hdiv hdivlt
      simp only [stripCount, if_pos h10]
      refine ⟨?_, h2, h3, ?_, by omega⟩
      · rw [pow_succ, ← mul_assoc, h1]
        omega
      · have : fuel + 1 - ((stripCount fuel (m / 10)).2 + 1)
            = fuel - (stripCount fuel (m / 10)).2 := by omega
        rw [this]
        exact h4
    · simp only [stripCount, if_neg h10]
      exact ⟨by simp, h10, hm, by simpa using hlt, by omega⟩

/-- The characters of the fractional-second part of the RFC 3339 Nano layout:
empty when the nanosecond field is zero, otherwise a dot followed by the
nanosecond value printed to 9 places with trailing zeros removed. -/
def fracChars (nsec : Nat) : List Char :=
  if nsec = 0 then []
  else '.' :: pad (9 - (stripCount 9 nsec).2) (stripCount 9 nsec).1

/-- Read an optional fractional-second part: a dot followed by 1 to 9 digits.
Absent dot means a zero fraction.  (Go accepts longer fractions by truncation;
the codec never produces them.) -/
def readFrac : List Char → Option (Nat × List Char)
  | '.' :: rest =>
    if 1 ≤ (rest.takeWhile Char.isDigit).length ∧ (rest.takeWhile Char.isDigit).length ≤ 9 then
      some (digitsToNat (rest.takeWhile Char.isDigit)
              * 10 ^ (9 - (rest.takeWhile Char.isDigit).length),
            rest.drop (rest.takeWhile Char.isDigit).length)
    else none
  | cs => some (0, cs)

theorem takeWhile_append_all {p : Char → Bool} (l rest : List Char)
    (hl : ∀ c ∈ l, p c = true) (hr : ∀ c cs, rest = c :: cs → p c = false) :
    (l ++ rest).takeWhile p = l := by
  induction l with
  | nil =>
    cases rest with
    | nil => simp
    | cons c cs => simp [List.takeWhile_cons, hr c cs rfl]
  | cons x xs ih =>
    have hx : p x = true := hl x (by simp)
    simp only [List.cons_append, List.takeWhile_cons, hx, if_true]
    rw [ih (fun c hc => hl c (by simp [hc]))]

theorem readFrac_fracChars (nsec : Nat) (h : nsec < 10 ^ 9) (rest : List Char)
    (hhead : ∀ c cs, rest = c :: cs → c ≠ '.' ∧ c.isDigit = false) :
    readFrac (fracChars nsec ++ rest) = some (nsec, rest) := by
  by_cases h0 : nsec = 0
  · subst h0
    simp only [fracChars, if_pos rfl, List.nil_append]
    cases rest with
    | nil => rfl
    | cons c cs =>
      have hc : ¬(c = '.') := (hhead c cs rfl).1
      simp [readFrac, hc]
  · obtain ⟨h1, h2, h3, h4, h5⟩ := stripCount_spec 9 nsec h0 h
    set m := (stripCount 9 nsec).1 with hm
    set k := (stripCount 9 nsec).2 with hk
    have hk8 : k ≤ 8 := by
      by_contra hcon
      have hk9 : k = 9 := by omega
      rw [hk9] at h4
      simp at h4
      omega
    have hlen : (9 : Nat) - k ≥ 1 := by omega
    have hmlt : m < 10 ^ (9 - k) := h4
    have htw : ((pad (9 - k) m ++ rest).takeWhile Char.isDigit) = pad (9 - k) m :=
      takeWhile_append_all _ _ (mem_pad_isDigit _ _)
        (fun c cs hc => (hhead c cs hc).2)
    have hdrop : (pad (9 - k) m ++ rest).drop (9 - k) = rest :=
      drop_append_of_length _ _ _ (length_pad _ _)
    simp only [fracChars, if_neg h0, ← hm, ← hk, List.cons_append, readFrac, htw,
      length_pad]
    rw [if_pos ⟨hlen, by omega⟩, hdrop, digitsToNat_pad _ _ hmlt]
    have : (9 : Nat) - (9 - k) = k := by omega
    rw [this, h1]

/-! ## Zone offset -/

/-- The characters of the RFC 3339 `Z07:00` component: `Z` for a zero offset,
otherwise a sign and zero-padded hours and minutes.  `off` is the zone offset
in minutes. -/
def offsetChars (off : Int) : List Char :=
  if off = 0 then ['Z']
  else (if off < 0 then '-' else '+')
    :: (pad 2 (off.natAbs / 60) ++ ':' :: pad 2 (off.natAbs % 60))

/-- Read a signed `hh:mm` offset body with the hour at most 23 and the minute
at most 59, returning `sign` times the offset in minutes. -/
def readSignedOffset (sign : Int) (rest : List Char) : Option (Int × List Char) :=
  match readFixed 2 rest with
  | none => none
  | some (h, r1) =>
  match readLit ':' r1 with
  | none => none
  | some r2 =>
  match readFixed 2 r2 with
  | none => none
  | some (m, r3) =>
    if h ≤ 23 ∧ m ≤ 59 then some (sign * ((h * 60 + m : Nat) : Int), r3) else none

/-- Read the RFC 3339 zone offset: `Z`, or a signed `hh:mm` pair.  The result
is the offset in minutes. -/
def readOffset (cs : List Char) : Option (Int × List Char) :=
  match cs with
  | 'Z' :: rest => some (0, rest)
  | '+' :: rest => readSignedOffset 1 rest
  | '-' :: rest => readSignedOffset (-1) rest
  | _ => none

theorem readSignedOffset_pads (sign : Int) (a : Nat) (ha : a ≤ 1439) (rest : List Char) :
    readSignedOffset sign (pad 2 (a / 60) ++ ':' :: pad 2 (a % 60) ++ rest)
      = some (sign * (a : Int), rest) := by
  have hh : a / 60 < 10 ^ 2 := by omega
  have hm : a % 60 < 10 ^ 2 := by omega
  have e1 : readFixed 2 (pad 2 (a / 60) ++ (':' :: (pad 2 (a % 60) ++ rest)))
      = some (a / 60, ':' :: (pad 2 (a % 60) ++ rest)) :=
    readFixed_pad 2 (a / 60) (':' :: (pad 2 (a % 60) ++ rest)) hh
  have e2 : readFixed 2 (pad 2 (a % 60) ++ rest)
      = some (a % 60, rest) := readFixed_pad 2 _ rest hm
  simp only [List.append_assoc, List.cons_append]
  simp only [readSignedOffset, e1, readLit_cons, e2]
  rw [if_pos ⟨by omega, by omega⟩]
  have hval : ((a / 60 * 60 + a % 60 : Nat) : Int) = (a : Int) := by
    have : a / 60 * 60 + a % 60 = a := by omega
    rw [this]
  rw [hval]

theorem readOffset_offsetChars (off : Int) (habs : off.natAbs ≤ 1439) (rest : List Char) :
    readOffset (offsetChars off ++ rest) = some (off, rest) := by
  by_cases h0 : off = 0
  · subst h0
    simp [offsetChars, readOffset]
  · by_cases hneg : off < 0
    · simp only [offsetChars, if_neg h0, if_pos hneg, List.cons_append, readOffset]
      rw [readSignedOffset_pads (-1) off.natAbs habs rest]
      have : (-1 : Int) * (off.natAbs : Int) = off := by omega
      rw [this]
    · simp only [offsetChars, if_neg h0, if_neg hneg, List.cons_append, readOffset]
      rw [readSignedOffset_pads 1 off.natAbs habs rest]
      have : (1 : Int) * (off.natAbs : Int) = off := by omega
      rw [this]

/-! ## Go `time.Time`, RFC 3339 format and parse

Go's `time.Time` is modelled in broken-down civil form: the wall-clock fields
in the time's own location, together with the zone offset in minutes.  This is
exactly the information that `Format(time.RFC3339Nano)` prints and that
`Parse` recovers, so the format/parse pair below is a faithful model of the
strings exchanged by the codec.  Two values with equal fields denote the same
instant. -/

structure GoTime where
  year : Nat
  month : Nat
  day : Nat
  hour : Nat
  minute : Nat
  second : Nat
  nsec : Nat
  offMin : Int
deriving DecidableEq

/-- Go's zero `time.Time`: January 1, year 1, 00:00:00 UTC. -/
def goTimeZero : GoTime := ⟨1, 1, 1, 0, 0, 0, 0, 0⟩

def isLeapYear (y : Nat) : Bool := y % 4 = 0 && (y % 100 ≠ 0 || y % 400 = 0)

def daysInMonth (y m : Nat) : Nat :=
  if m = 2 then (if isLeapYear y then 29 else 28)
  else if m = 4 ∨ m = 6 ∨ m = 9 ∨ m = 11 then 30
  else 31

/-- The fields of a `time.Time` that the RFC 3339 layouts can represent:
a four-digit year, a valid Gregorian calendar date, in-range clock fields,
nanoseconds below one second, and a zone offset below 24 hours. -/
def WFTime (t : GoTime) : Prop :=
  t.year ≤ 9999 ∧ 1 ≤ t.month ∧ t.month ≤ 12 ∧ 1 ≤ t.day ∧ t.day ≤ daysInMonth t.year t.month
    ∧ t.hour ≤ 23 ∧ t.minute ≤ 59 ∧ t.second ≤ 59 ∧ t.nsec < 10 ^ 9 ∧ t.offMin.natAbs ≤ 1439

instance (t : GoTime) : Decidable (WFTime t) := by
  unfold WFTime
  infer_instance

/-- The characters of `t.Format(time.RFC3339Nano)`:
`YYYY-MM-DDTHH:MM:SS`, then the fractional seconds with trailing zeros
removed (absent when zero), then the zone offset. -/
def timeChars (t : GoTime) : List Char :=
  pad 4 t.year ++ ('-' :: (pad 2 t.month ++ ('-' :: (pad 2 t.day
    ++ ('T' :: (pad 2 t.hour ++ (':' :: (pad 2 t.minute ++ (':' :: (pad 2 t.second
    ++ (fracChars t.nsec ++ offsetChars t.offMin)))))))))))

/-- Go `t.Format(time.RFC3339Nano)` for the representable times. -/
def formatRFC3339Nano (t : GoTime) : String := String.mk (timeChars t)

/-- Go `time.Parse` with the RFC 3339 layouts (both `time.RFC3339Nano` and
`time.RFC3339` accept an optional fractional-second part, so one parser
models both): fixed-width dash-separated date, `T`, colon-separated clock,
optional fraction, zone offset, end of input, with the same field range
checks Go's RFC 3339 parser performs. -/
def parseRFC3339 (s : String) : Option GoTime :=
  match readFixed 4 s.toList with
  | none => none
  | some (y, r1) =>
  match readLit '-' r1 with
  | none => none
  | some r2 =>
  match readFixed 2 r2 with
  | none => none
  | some (mo, r3) =>
  match readLit '-' r3 with
  | none => none
  | some r4 =>
  match readFixed 2 r4 with
  | none => none
  | some (d, r5) =>
  match readLit 'T' r5 with
  | none => none
  | some r6 =>
  match readFixed 2 r6 with
  | none => none
  | some (h, r7) =>
  match readLit ':' r7 with
  | none => none
  | some r8 =>
  match readFixed 2 r8 with
  | none => none
  | some (mi, r9) =>
  match readLit ':' r9 with
  | none => none
  | some r10 =>
  match readFixed 2 r10 with
  | none => none
  | some (s2, r11) =>
  match readFrac r11 with
  | none => none
  | some (ns, r12) =>
  match readOffset r12 with
  | none => none
  | some (off, r13) =>
    if r13 = [] ∧ 1 ≤ mo ∧ mo ≤ 12 ∧ 1 ≤ d ∧ d ≤ daysInMonth y mo
        ∧ h ≤ 23 ∧ mi ≤ 59 ∧ s2 ≤ 59 then
      some ⟨y, mo, d, h, mi, s2, ns, off⟩
    else none

theorem parse_format_roundTrip (t : GoTime) (h : WFTime t) :
    parseRFC3339 (formatRFC3339Nano t) = some t := by
  obtain ⟨hy, hmo1, hmo2, hd1, hd2, hh, hmi, hs, hns, hoff⟩ := h
  have hy4 : t.year < 10 ^ 4 := by omega
  have hmo' : t.month < 10 ^ 2 := by omega
  have hd' : t.day < 10 ^ 2 := by
    have : daysInMonth t.year t.month ≤ 31 := by
      unfold daysInMonth
      split <;> [split <;> omega; (split <;> omega)]
    omega
  have hh' : t.hour < 10 ^ 2 := by omega
  have hmi' : t.minute < 10 ^ 2 := by omega
  have hs' : t.second < 10 ^ 2 := by omega
  have hoffHead : ∀ c cs, offsetChars t.offMin = c :: cs → c ≠ '.' ∧ c.isDigit = false := by
    intro c cs hc
    unfold offsetChars at hc
    by_cases h0 : t.offMin = 0
    · rw [if_pos h0] at hc
      cases hc
      exact ⟨by decide, by decide⟩
    · rw [if_neg h0] at hc
      by_cases hneg : t.offMin < 0
      · rw [if_pos hneg] at hc
        cases hc
        exact ⟨by decide, by decide⟩
      · rw [if_neg hneg] at hc
        cases hc
        exact ⟨by decide, by decide⟩
  have efrac : readFrac (fracChars t.nsec ++ offsetChars t.offMin)
      = some (t.nsec, offsetChars t.offMin) :=
    readFrac_fracChars t.nsec hns (offsetChars t.offMin) hoffHead
  have eoff : readOffset (offsetChars t.offMin ++ [])
      = some (t.offMin, []) := readOffset_offsetChars t.offMin hoff []
  rw [List.append_nil] at eoff
  show parseRFC3339 (String.mk (timeChars t)) = some t
  have hlist : (String.mk (timeChars t)).toList = timeChars t := rfl
  unfold parseRFC3339
  rw [hlist]
  unfold timeChars
  rw [readFixed_pad 4 t.year _ hy4]
  simp only [readLit_cons]
  rw [readFixed_pad 2 t.month _ hmo']
  simp only [readLit_cons]
  rw [readFixed_pad 2 t.day _ hd']
  simp only [readLit_cons]
  rw [readFixed_pad 2 t.hour _ hh']
  simp only [readLit_cons]
  rw [readFixed_pad 2 t.minute _ hmi']
  simp only [readLit_cons]
  rw [readFixed_pad 2 t.second _ hs']
  simp only [efrac, eoff]
  rw [if_pos ⟨trivial, hmo1, hmo2, hd1, hd2, hh, hmi, hs⟩]

/-! ## Dynamically typed values

`ExtValue` models the Go `interface{}` values an `event.Event` can carry in
its extension map (the CloudEvents canonical types stored by the SDK, plus
`floatV` standing for a value of an unsupported runtime type such as
`float64`, which can reach the codec through a directly constructed event
context).  `WireValue` models the Go `any` values of the Avro record's
attribute map and data slot. -/

inductive ExtValue where
  | boolV (b : Bool)
  | intV (n : Int)
  | strV (s : String)
  | bytesV (bs : List Nat)
  | uriV (s : String)
  | uriRefV (s : String)
  | timeV (t : GoTime)
  | floatV
deriving DecidableEq

inductive WireValue where
  | nullW
  | boolW (b : Bool)
  | intW (n : Int)
  | int32W (n : Int)
  | int64W (n : Int)
  | strW (s : String)
  | bytesW (bs : List Nat)
  | mapW (m : List (String × WireValue))

/-- Go's `%T` for the wire values (`map[string]interface` with empty braces
for a decoded Avro map, `[]uint8` for a byte slice, `<nil>` for nil). -/
def goTypeNameWire : WireValue → String
  | .nullW => "<nil>"
  | .boolW _ => "bool"
  | .intW _ => "int"
  | .int32W _ => "int32"
  | .int64W _ => "int64"
  | .strW _ => "string"
  | .bytesW _ => "[]uint8"
  | .mapW _ => "map[string]interface \x7b\x7d"

/-- Go's `%T` for the event-side extension values. -/
def goTypeNameExt : ExtValue → String
  | .boolV _ => "bool"
  | .intV _ => "int32"
  | .strV _ => "string"
  | .bytesV _ => "[]uint8"
  | .uriV _ => "types.URI"
  | .uriRefV _ => "types.URIRef"
  | .timeV _ => "types.Timestamp"
  | .floatV => "float64"

/-- Two's-complement truncation to 32 bits: Go's `int32(v)` conversion for
64-bit integer values. -/
def wrap32 (n : Int) : Int := (n + 2 ^ 31) % 2 ^ 32 - 2 ^ 31

/-! ## Go maps as association lists

Go map assignment `m[k] = v` replaces an existing entry in place, else adds
one; lookup `v, ok := m[k]` returns the entry when present. -/

def mapSet {α : Type} : List (String × α) → String → α → List (String × α)
  | [], k, v => [(k, v)]
  | p :: rest, k, v => if p.1 = k then (k, v) :: rest else p :: mapSet rest k v

def mlookup {α : Type} : List (String × α) → String → Option α
  | [], _ => none
  | p :: rest, k => if p.1 = k then some p.2 else mlookup rest k

/-- Error-propagating loop over a list, the shape of the Go `for ... range`
loops in `ToAvro` and `FromAvro` that return on the first failure. -/
def foldSteps {σ α : Type} (f : σ → α → Except String σ) : σ → List α → Except String σ
  | s, [] => .ok s
  | s, x :: xs =>
    match f s x with
    | .error err => .error err
    | .ok s' => foldSteps f s' xs

/-! ## The structured event and the Avro record -/

/-- Modelled from the spec (§3, Structured Event): the external
`event.Event` of the CloudEvents SDK (module `v2`, not part of the verified
sources), an envelope of four required string attributes, optional string
attributes (empty string meaning unset), a timestamp (the zero `time.Time`
meaning unset), a map of extension attributes, and the encoded payload bytes
(Go nil meaning no payload). -/
structure Event where
  specversion : String
  id : String
  source : String
  typ : String
  datacontenttype : String
  dataschema : String
  subject : String
  time : GoTime
  extensions : List (String × ExtValue)
  dataEncoded : Option (List Nat)
deriving DecidableEq

/-- Modelled from the spec: `event.New()`, a fresh event whose specification
version defaults to "1.0" and whose other fields are zero values. -/
def eventNew : Event := ⟨"1.0", "", "", "", "", "", "", goTimeZero, [], none⟩

/-- ASCII lowercasing of Go `strings.ToLower` restricted to the ASCII range,
which is all the SDK's extension-name normalization needs. -/
def charLower (c : Char) : Char :=
  if 'A' ≤ c ∧ c ≤ 'Z' then Char.ofNat (c.toNat + 32) else c

def strLower (s : String) : String := String.mk (s.toList.map charLower)

/-- Modelled from the spec (§3): the SDK's `Event.SetExtension`.  The name is
normalized to lowercase (documented by the repository's tests: "CloudEvents
SDK normalizes extension names to lowercase"); a nil value deletes the
extension, any other stored value replaces it. -/
def eventSetExtension (e : Event) (name : String) (v : Option ExtValue) : Event :=
  match v with
  | none => { e with extensions := e.extensions.filter (fun p => p.1 ≠ strLower name) }
  | some w => { e with extensions := mapSet e.extensions (strLower name) w }

/-- The Avro `CloudEventRecord` of the `schema` package: an attribute map and
a `data` slot whose Avro type is a union (nil models the null branch). -/
structure CloudEventRecord where
  Attribute : List (String × WireValue)
  Data : WireValue

/-- The type of the external JSON serializer `json.Marshal` as used by
`FromAvro` on a decoded generic map (an external collaborator, passed in
explicitly). -/
def JsonM : Type := List (String × WireValue) → Except String (List Nat)

/-- UTF-8 bytes of a string: Go's `[]byte(s)` conversion. -/
def utf8Bytes (s : String) : List Nat := (s.toUTF8.toList).map (fun b => b.toNat)

/-! ## The envelope codec -/

/-- Modelled from the spec (§4.1 step 4): the SDK's `types.Validate` (module
`v2/types`, not part of the verified sources), which canonicalizes a value
of one of the supported CloudEvents attribute types (boolean, 32-bit
integer, string, byte sequence, URI, URI-reference, timestamp) and rejects
any other runtime type with an error stating that type. -/
def typesValidate : ExtValue → Except String ExtValue
  | .floatV => .error ("invalid CloudEvents value of type " ++ goTypeNameExt .floatV)
  | v => .ok v

/-- `attributeValueFor`: converts a Go value to an Avro-compatible attribute
value (`avro.go` lines 127-154).  URIs, URI-references and timestamps are
encoded as strings; a 32-bit integer is returned as a Go `int`. -/
def attributeValueFor (v : ExtValue) : Except String WireValue :=
  match typesValidate v with
  | .error err => .error err
  | .ok vv =>
    match vv with
    | .boolV b => .ok (.boolW b)
    | .intV n => .ok (.intW n)
    | .strV s => .ok (.strW s)
    | .bytesV bs => .ok (.bytesW bs)
    | .uriV s => .ok (.strW s)
    | .uriRefV s => .ok (.strW s)
    | .timeV t => .ok (.strW (formatRFC3339Nano t))
    | .floatV => .error ("unsupported attribute type: " ++ goTypeNameExt .floatV)

/-- One iteration of `ToAvro`'s extension loop (`avro.go` lines 109-115). -/
def encodeStep (acc : List (String × WireValue)) (p : String × ExtValue) :
    Except String (List (String × WireValue)) :=
  match attributeValueFor p.2 with
  | .error err => .error ("failed to encode extension attribute " ++ p.1 ++ ": " ++ err)
  | .ok av => .ok (mapSet acc p.1 av)

/-- `ToAvro` lines 88-91: the four required attributes, written
unconditionally. -/
def requiredAttributes (e : Event) : List (String × WireValue) :=
  mapSet (mapSet (mapSet (mapSet [] "specversion" (.strW e.specversion))
    "id" (.strW e.id)) "source" (.strW e.source)) "type" (.strW e.typ)

/-- `ToAvro` lines 94-96: the content type, if non-empty. -/
def withDct (e : Event) (l : List (String × WireValue)) : List (String × WireValue) :=
  if e.datacontenttype ≠ "" then mapSet l "datacontenttype" (.strW e.datacontenttype) else l

/-- `ToAvro` lines 97-99: the data schema, if non-empty. -/
def withDataschema (e : Event) (l : List (String × WireValue)) : List (String × WireValue) :=
  if e.dataschema ≠ "" then mapSet l "dataschema" (.strW e.dataschema) else l

/-- `ToAvro` lines 100-102: the subject, if non-empty. -/
def withSubject (e : Event) (l : List (String × WireValue)) : List (String × WireValue) :=
  if e.subject ≠ "" then mapSet l "subject" (.strW e.subject) else l

/-- `ToAvro` lines 103-106: the timestamp as an RFC 3339 Nano string, unless
it is the zero time. -/
def withTime (e : Event) (l : List (String × WireValue)) : List (String × WireValue) :=
  if e.time ≠ goTimeZero then mapSet l "time" (.strW (formatRFC3339Nano e.time)) else l

/-- The attribute map `ToAvro` builds before the extension loop. -/
def baseAttributes (e : Event) : List (String × WireValue) :=
  withTime e (withSubject e (withDataschema e (withDct e (requiredAttributes e))))

/-- `ToAvro` (`avro.go` lines 82-123): required attributes unconditionally,
optional attributes only when non-empty / non-zero, extensions through
`attributeValueFor`, payload bytes into the data slot when non-nil. -/
def ToAvro (e : Event) : Except String CloudEventRecord :=
  match foldSteps encodeStep (baseAttributes e) e.extensions with
  | .error err => .error err
  | .ok attrs =>
    .ok ⟨attrs, match e.dataEncoded with
                | some bs => .bytesW bs
                | none => .nullW⟩

/-- `extensionValueFrom` (`avro.go` lines 252-274): converts an Avro
attribute value back to a Go value.  A nil value stays nil; integer values
of any width collapse to `int32` (with Go's truncating conversion);
unsupported dynamic types are rejected naming the type. -/
def extensionValueFrom : WireValue → Except String (Option ExtValue)
  | .nullW => .ok none
  | .boolW b => .ok (some (.boolV b))
  | .intW n => .ok (some (.intV (wrap32 n)))
  | .int32W n => .ok (some (.intV n))
  | .int64W n => .ok (some (.intV (wrap32 n)))
  | .strW s => .ok (some (.strV s))
  | .bytesW bs => .ok (some (.bytesV bs))
  | v => .error ("unsupported attribute type: " ++ goTypeNameWire v)

/-- One iteration of `FromAvro`'s attribute loop (`avro.go` lines 183-222):
required names are skipped, the reserved optional names take string values
only (a non-string value is silently ignored), the time string is parsed
with the RFC 3339 layouts, and every other name is an extension. -/
def decodeStep (e : Event) (p : String × WireValue) : Except String Event :=
  if p.1 = "specversion" ∨ p.1 = "id" ∨ p.1 = "source" ∨ p.1 = "type" then .ok e
  else if p.1 = "datacontenttype" then
    match p.2 with
    | .strW s => .ok { e with datacontenttype := s }
    | _ => .ok e
  else if p.1 = "dataschema" then
    match p.2 with
    | .strW s => .ok { e with dataschema := s }
    | _ => .ok e
  else if p.1 = "subject" then
    match p.2 with
    | .strW s => .ok { e with subject := s }
    | _ => .ok e
  else if p.1 = "time" then
    match p.2 with
    | .strW s =>
      match parseRFC3339 s with
      | some t => .ok { e with time := t }
      | none => .error ("failed to parse time attribute: cannot parse " ++ s)
    | _ => .ok e
  else
    match extensionValueFrom p.2 with
    | .error err => .error ("failed to convert extension " ++ p.1 ++ ": " ++ err)
    | .ok v => .ok (eventSetExtension e p.1 v)

/-- Go's `if sv, ok := v.(string); ok { use sv }` on an optional map entry:
apply `f` when the entry is present and holds a string, else keep `e`. -/
def setIfStrW (o : Option WireValue) (f : String → Event) (e : Event) : Event :=
  match o with
  | some (.strW s) => f s
  | _ => e

/-- The first stage of `FromAvro` (`avro.go` lines 158-180): a fresh event
whose required fields are populated from the string-valued entries of the
attribute map, a non-string value being silently skipped. -/
def requiredFields (record : CloudEventRecord) : Event :=
  let e0 := eventNew
  let e1 := setIfStrW (mlookup record.Attribute "specversion")
    (fun s => { e0 with specversion := s }) e0
  let e2 := setIfStrW (mlookup record.Attribute "id") (fun s => { e1 with id := s }) e1
  let e3 := setIfStrW (mlookup record.Attribute "source") (fun s => { e2 with source := s }) e2
  setIfStrW (mlookup record.Attribute "type") (fun s => { e3 with typ := s }) e3

/-- The last stage of `FromAvro` (`avro.go` lines 224-247): populate the
payload from the record's data slot. -/
def decodeData (jm : JsonM) (e5 : Event) (d : WireValue) : Except String Event :=
  match d with
  | .bytesW bs => .ok { e5 with dataEncoded := some bs }
  | .strW s => .ok { e5 with dataEncoded := some (utf8Bytes s) }
  | .mapW m =>
    match mlookup m "bytes" with
    | some (.bytesW bs) => .ok { e5 with dataEncoded := some bs }
    | _ =>
      match mlookup m "string" with
      | some (.strW s) => .ok { e5 with dataEncoded := some (utf8Bytes s) }
      | _ =>
        match jm m with
        | .ok js => .ok { e5 with dataEncoded := some js }
        | .error err => .error ("failed to marshal map data: " ++ err)
  | _ => .ok e5

/-- `FromAvro` (`avro.go` lines 157-250): populate the required fields from
string-valued entries, walk the attribute map, then populate the payload
from the data slot. -/
def FromAvro (jm : JsonM) (record : CloudEventRecord) : Except String Event :=
  match foldSteps decodeStep (requiredFields record) record.Attribute with
  | .error err => .error err
  | .ok e5 => decodeData jm e5 record.Data

/-- `avroFmt.Unmarshal` (`avro.go` lines 68-79): decode the bytes against
the fixed schema through the external Avro engine, convert the record, and
only then overwrite the target event.  The engine is an explicit parameter;
the Go in-place mutation of the target becomes an explicit result state. -/
def avroUnmarshal (engine : List Nat → Except String CloudEventRecord) (jm : JsonM)
    (b : List Nat) (e : Event) : Event × Option String :=
  match engine b with
  | .error err => (e, some err)
  | .ok record =>
    match FromAvro jm record with
    | .error err => (e, some err)
    | .ok e2 => (e2, none)

/-! ## The payload codec (`EncodeData` / `DecodeData` / `getSchemaFor`)

The schema handle is opaque; a payload value is either a raw byte slice, a
value whose type implements the `SchemaProvider` interface, or a plain value
(neither).  Go's nil-able `(avro.Schema, error)` pair becomes
`Except String (Option AvroSchema)`, and the process-wide registry pointer
set through `SetSchemaRegistry` is passed explicitly (`none` = no registry
installed). -/

structure AvroSchema where
  sid : Nat
deriving DecidableEq

inductive GoPayload where
  /-- A Go `[]byte` value. -/
  | bytesP (bs : List Nat)
  /-- A value whose dynamic type implements `SchemaProvider`; `tname` is its
  `%T` name and `sch` what `AvroSchema()` returns. -/
  | withProvider (tname : String) (sch : AvroSchema)
  /-- Any other value; `tname` is its `%T` name. -/
  | plainP (tname : String)
deriving DecidableEq

/-- Go's `%T` for a payload value. -/
def goTypeNamePayload : GoPayload → String
  | .bytesP _ => "[]uint8"
  | .withProvider t _ => t
  | .plainP t => t

/-- A `SchemaRegistry` implementation: `GetSchema(v)` returning a possibly
nil schema and a possibly nil error. -/
def SchemaRegistry : Type := GoPayload → Except String (Option AvroSchema)

/-- `getSchemaFor` (`receiver-avro` datacodec, lines 120-138): first the
value's own `SchemaProvider` capability, then the installed registry, else
an error naming the runtime type with the hint to implement the interface
or set a registry.  (The source's second assertion on `&v`, a pointer to an
interface value, can never implement `SchemaProvider` and is dead code.) -/
def getSchemaFor (registry : Option SchemaRegistry) (v : GoPayload) :
    Except String (Option AvroSchema) :=
  match v with
  | .withProvider _ sch => .ok (some sch)
  | _ =>
    match registry with
    | some r => r v
    | none =>
      .error ("no schema available for type " ++ goTypeNamePayload v
        ++ ": implement SchemaProvider interface or set a SchemaRegistry")

/-- `EncodeData` (`receiver-avro` datacodec, lines 99-113): a byte slice is
returned as-is; otherwise resolve a schema and marshal through the external
Avro engine (`marshal`, an explicit parameter standing for `avro.Marshal`). -/
def EncodeData (registry : Option SchemaRegistry)
    (marshal : Option AvroSchema → GoPayload → Except String (List Nat))
    (v : GoPayload) : Except String (List Nat) :=
  match v with
  | .bytesP bs => .ok bs
  | _ =>
    match getSchemaFor registry v with
    | .error err => .error ("failed to get schema for encoding: " ++ err)
    | .ok sch => marshal sch v

/-- `DecodeData` (`receiver-avro` datacodec, lines 84-97): resolve a schema
for the target and unmarshal into it through the external Avro engine
(`unmarshal`, standing for `avro.Unmarshal`; the mutated target is the
returned value). -/
def DecodeData (registry : Option SchemaRegistry)
    (unmarshal : Option AvroSchema → List Nat → GoPayload → Except String GoPayload)
    (bs : List Nat) (out : GoPayload) : Except String GoPayload :=
  match getSchemaFor registry out with
  | .error err => .error ("failed to get schema for decoding: " ++ err)
  | .ok sch =>
    match unmarshal sch bs out with
    | .error err => .error ("failed to unmarshal Avro data: " ++ err)
    | .ok out2 => .ok out2

/-! ## Association list and fold lemmas -/

/-- The eight attribute names the envelope schema reserves. -/
def reservedNames : List String :=
  ["specversion", "id", "source", "type", "datacontenttype", "dataschema", "subject", "time"]

theorem mlookup_mapSet_self {α : Type} (l : List (String × α)) (k : String) (v : α) :
    mlookup (mapSet l k v) k = some v := by
  induction l with
  | nil => simp [mapSet, mlookup]
  | cons p rest ih =>
    by_cases h : p.1 = k
    · simp [mapSet, mlookup, h]
    · simp [mapSet, mlookup, h, ih]

theorem mlookup_mapSet_other {α : Type} (l : List (String × α)) (k k' : String) (v : α)
    (h : k' ≠ k) : mlookup (mapSet l k v) k' = mlookup l k' := by
  induction l with
  | nil =>
    simp only [mapSet, mlookup]
    rw [if_neg (Ne.symm h)]
  | cons p rest ih =>
    by_cases hp : p.1 = k
    · simp only [mapSet, if_pos hp, mlookup]
      rw [if_neg (Ne.symm h), if_neg (by rw [hp]; exact Ne.symm h)]
    · simp only [mapSet, if_neg hp, mlookup, ih]

theorem mapSet_eq_append {α : Type} (l : List (String × α)) (k : String) (v : α)
    (h : mlookup l k = none) : mapSet l k v = l ++ [(k, v)] := by
  induction l with
  | nil => simp [mapSet]
  | cons p rest ih =>
    by_cases hp : p.1 = k
    · simp [mlookup, hp] at h
    · simp only [mlookup, if_neg hp] at h
      simp [mapSet, hp, ih h]

theorem mlookup_append {α : Type} (l1 l2 : List (String × α)) (k : String) :
    mlookup (l1 ++ l2) k
      = match mlookup l1 k with
        | some v => some v
        | none => mlookup l2 k := by
  induction l1 with
  | nil => simp [mlookup]
  | cons p rest ih =>
    by_cases hp : p.1 = k
    · simp [mlookup, hp]
    · simp [mlookup, hp, ih]

theorem mlookup_filter_self {α : Type} (l : List (String × α)) (k : String) :
    mlookup (l.filter (fun p => p.1 ≠ k)) k = none := by
  induction l with
  | nil => simp [mlookup]
  | cons p rest ih =>
    rw [List.filter_cons]
    by_cases hp : p.1 = k
    · rw [if_neg (by simp [hp])]
      exact ih
    · rw [if_pos (by simp [hp])]
      simp only [mlookup, if_neg hp]
      exact ih

theorem mlookup_filter_other {α : Type} (l : List (String × α)) (k k' : String) (h : k' ≠ k) :
    mlookup (l.filter (fun p => p.1 ≠ k)) k' = mlookup l k' := by
  induction l with
  | nil => simp [mlookup]
  | cons p rest ih =>
    rw [List.filter_cons]
    by_cases hp : p.1 = k
    · rw [if_neg (by simp [hp]), ih]
      simp only [mlookup]
      rw [if_neg (by rw [hp]; exact Ne.symm h)]
    · rw [if_pos (by simp [hp])]
      simp only [mlookup, ih]

/-- Keys of an association list are pairwise distinct (a Go map invariant). -/
def keysNodup {α : Type} (l : List (String × α)) : Prop := (l.map Prod.fst).Nodup

theorem mlookup_eq_some_split {α : Type} (l : List (String × α)) (k : String) (v : α)
    (h : mlookup l k = some v) :
    ∃ l1 l2, l = l1 ++ (k, v) :: l2 ∧ ∀ p ∈ l1, p.1 ≠ k := by
  induction l with
  | nil => simp [mlookup] at h
  | cons p rest ih =>
    by_cases hp : p.1 = k
    · simp only [mlookup, if_pos hp] at h
      refine ⟨[], rest, ?_, by simp⟩
      obtain ⟨p1, p2⟩ := p
      simp at hp h
      simp [hp, h]
    · simp only [mlookup, if_neg hp] at h
      obtain ⟨l1, l2, heq, hne⟩ := ih h
      exact ⟨p :: l1, l2, by simp [heq], by
        intro q hq
        rcases List.mem_cons.mp hq with hq | hq
        · subst hq; exact hp
        · exact hne q hq⟩

theorem keysNodup_split {α : Type} (l1 l2 : List (String × α)) (k : String) (v : α)
    (h : keysNodup (l1 ++ (k, v) :: l2)) : ∀ p ∈ l2, p.1 ≠ k := by
  intro p hp
  unfold keysNodup at h
  simp only [List.map_append, List.map_cons] at h
  have h2 := (List.nodup_append.mp h).1
  have h3 := (List.nodup_append.mp h).2.1
  have := List.nodup_cons.mp h3
  intro hk
  exact this.1 (by
    rw [← hk]
    exact List.mem_map.mpr ⟨p, hp, rfl⟩)

theorem foldSteps_append {σ α : Type} (f : σ → α → Except String σ) (l1 l2 : List α) (s : σ) :
    foldSteps f s (l1 ++ l2)
      = match foldSteps f s l1 with
        | .error err => .error err
        | .ok s' => foldSteps f s' l2 := by
  induction l1 generalizing s with
  | nil => simp [foldSteps]
  | cons x xs ih =>
    simp only [List.cons_append, foldSteps]
    cases f s x with
    | error err => rfl
    | ok s' => exact ih s'

theorem foldSteps_filter_of_noop {σ α : Type} (f : σ → α → Except String σ) (q : α → Bool)
    (l : List α) (h : ∀ x ∈ l, q x = false → ∀ s : σ, f s x = .ok s) :
    ∀ s : σ, foldSteps f s l = foldSteps f s (l.filter q) := by
  induction l with
  | nil => intro s; rfl
  | cons x xs ih =>
    intro s
    by_cases hq : q x = true
    · simp only [List.filter_cons, hq, if_true, foldSteps]
      cases f s x with
      | error err => rfl
      | ok s' => exact ih (fun y hy => h y (by simp [hy])) s'
    · have hq' : q x = false := by simpa using hq
      simp only [List.filter_cons, hq', Bool.false_eq_true, if_false, foldSteps,
        h x (by simp) hq']
      exact ih (fun y hy => h y (by simp [hy])) s

theorem foldSteps_first_error {σ α : Type} (f : σ → α → Except String σ)
    (x : α) (msg : String) (hx : ∀ s : σ, f s x = .error msg) :
    ∀ (l : List α) (s : σ), x ∈ l → (∀ y ∈ l, y ≠ x → ∀ s' : σ, ∃ s'', f s' y = .ok s'') →
    foldSteps f s l = .error msg := by
  intro l
  induction l with
  | nil => intro s hmem; simp at hmem
  | cons y ys ih =>
    intro s hmem hben
    by_cases hyx : y = x
    · subst hyx
      simp [foldSteps, hx s]
    · obtain ⟨s'', hy⟩ := hben y (by simp) hyx s
      simp only [foldSteps, hy]
      exact ih s'' (by
          rcases List.mem_cons.mp hmem with h | h
          · exact absurd h.symm hyx
          · exact h)
        (fun z hz => hben z (by simp [hz]))

theorem foldSteps_ite_singleton {σ α : Type} (f : σ → α → Except String σ) (c : Prop)
    [Decidable c] (x : α) (s : σ) :
    foldSteps f s (if c then [x] else []) = if c then f s x else .ok s := by
  split_ifs
  · simp only [foldSteps]
    cases f s x <;> rfl
  · rfl

/-! ## Facts about the decode loop body -/

theorem decodeStep_required (e : Event) (p : String × WireValue)
    (h : p.1 = "specversion" ∨ p.1 = "id" ∨ p.1 = "source" ∨ p.1 = "type") :
    decodeStep e p = .ok e := by
  unfold decodeStep
  rw [if_pos h]

theorem decodeStep_dataEncoded (e : Event) (p : String × WireValue) (e' : Event)
    (h : decodeStep e p = .ok e') : e'.dataEncoded = e.dataEncoded := by
  unfold decodeStep at h
  repeat' split at h
  all_goals (first | (simp only [Except.ok.injEq] at h; subst h) | simp at h)
  all_goals (first | rfl | (unfold eventSetExtension; split <;> rfl))

theorem foldSteps_decode_dataEncoded (l : List (String × WireValue)) :
    ∀ (e e' : Event), foldSteps decodeStep e l = .ok e' → e'.dataEncoded = e.dataEncoded := by
  induction l with
  | nil =>
    intro e e' h
    simp only [foldSteps, Except.ok.injEq] at h
    subst h; rfl
  | cons p ps ih =>
    intro e e' h
    simp only [foldSteps] at h
    cases hstep : decodeStep e p with
    | error err => rw [hstep] at h; cases h
    | ok e1 =>
      rw [hstep] at h
      rw [ih e1 e' h, decodeStep_dataEncoded e p e1 hstep]

/-! ## Claim theorems -/

/-- C2: schema resolution (`getSchemaFor`, used by both `EncodeData` and
`DecodeData`) first consults the value's own `SchemaProvider` capability;
failing that, it consults the registry installed via `SetSchemaRegistry`;
and when neither a provider nor a registry is available it fails with an
error naming the concrete runtime type and instructing the caller to
implement `SchemaProvider` or set a `SchemaRegistry`. -/
theorem getSchemaFor_resolution_order :
    (∀ (registry : Option SchemaRegistry) (t : String) (s : AvroSchema),
      getSchemaFor registry (.withProvider t s) = .ok (some s))
    ∧ (∀ (r : SchemaRegistry) (t : String),
      getSchemaFor (some r) (.plainP t) = r (.plainP t))
    ∧ (∀ (r : SchemaRegistry) (bs : List Nat),
      getSchemaFor (some r) (.bytesP bs) = r (.bytesP bs))
    ∧ (∀ t : String, getSchemaFor none (.plainP t)
        = .error ("no schema available for type " ++ t
            ++ ": implement SchemaProvider interface or set a SchemaRegistry"))
    ∧ (∀ bs : List Nat, getSchemaFor none (.bytesP bs)
        = .error ("no schema available for type []uint8"
            ++ ": implement SchemaProvider interface or set a SchemaRegistry")) :=
  ⟨fun _ _ _ => rfl, fun _ _ => rfl, fun _ _ => rfl, fun _ => rfl, fun _ => rfl⟩

/-- C7: `EncodeData` on a byte-slice input returns exactly the input bytes
with no error, for every registry state and every schema engine, without
consulting schema resolution. -/
theorem encodeData_bytes_passthrough
    (registry : Option SchemaRegistry)
    (marshal : Option AvroSchema → GoPayload → Except String (List Nat))
    (bs : List Nat) :
    EncodeData registry marshal (.bytesP bs) = .ok bs := rfl

/-- C9: if envelope `Unmarshal` fails at any stage (engine decode error or
any `FromAvro` conversion error), the target event is returned unchanged;
it is overwritten only after the whole conversion succeeded. -/
theorem unmarshal_error_leaves_target
    (engine : List Nat → Except String CloudEventRecord) (jm : JsonM)
    (b : List Nat) (e : Event) (h : (avroUnmarshal engine jm b e).2 ≠ none) :
    (avroUnmarshal engine jm b e).1 = e := by
  unfold avroUnmarshal at *
  cases heng : engine b with
  | error err => simp [heng]
  | ok record =>
    cases hfa : FromAvro jm record with
    | error err => simp [heng, hfa]
    | ok e2 =>
      exfalso
      apply h
      simp [heng, hfa]

/-- Witness for C9 at a concrete failing engine. -/
theorem unmarshal_error_leaves_target_witness :
    (avroUnmarshal (fun _ => .error "boom") (fun _ => .ok []) [] eventNew).2 ≠ none
    ∧ (avroUnmarshal (fun _ => .error "boom") (fun _ => .ok []) [] eventNew).1 = eventNew :=
  ⟨by simp [avroUnmarshal], unmarshal_error_leaves_target _ _ _ _ (by simp [avroUnmarshal])⟩

/-- Defined following the spec's words (§4.1 Decode step 4), for comparison
with the payload population `FromAvro` performs: raw bytes as-is; a string's
UTF-8 bytes; for a nested map the wrapped "bytes" branch, else the wrapped
"string" branch, else the JSON re-serialization of the whole structure; any
other shape leaves the payload unset. -/
def decodedDataSpec (jm : JsonM) : WireValue → Option (List Nat)
  | .bytesW bs => some bs
  | .strW s => some (utf8Bytes s)
  | .mapW m =>
    match mlookup m "bytes" with
    | some (.bytesW bs) => some bs
    | _ =>
      match mlookup m "string" with
      | some (.strW s) => some (utf8Bytes s)
      | _ =>
        match jm m with
        | .ok js => some js
        | .error _ => none
  | _ => none

theorem requiredFields_dataEncoded (record : CloudEventRecord) :
    (requiredFields record).dataEncoded = none := by
  simp only [requiredFields, setIfStrW]
  repeat' split
  all_goals rfl

theorem decodeData_result (jm : JsonM) (e5 : Event) (d : WireValue) (e : Event)
    (h : decodeData jm e5 d = .ok e) :
    e.dataEncoded = match decodedDataSpec jm d with
      | some bs => some bs
      | none => e5.dataEncoded := by
  cases d with
  | bytesW bs =>
    simp only [decodeData, Except.ok.injEq] at h
    subst h; rfl
  | strW s =>
    simp only [decodeData, Except.ok.injEq] at h
    subst h; rfl
  | nullW =>
    simp only [decodeData, Except.ok.injEq] at h
    subst h; rfl
  | boolW b =>
    simp only [decodeData, Except.ok.injEq] at h
    subst h; rfl
  | intW n =>
    simp only [decodeData, Except.ok.injEq] at h
    subst h; rfl
  | int32W n =>
    simp only [decodeData, Except.ok.injEq] at h
    subst h; rfl
  | int64W n =>
    simp only [decodeData, Except.ok.injEq] at h
    subst h; rfl
  | mapW m =>
    simp only [decodeData] at h
    simp only [decodedDataSpec]
    rcases hb : mlookup m "bytes" with _ | wb
    · simp only [hb] at h
      simp only [hb]
      rcases hs : mlookup m "string" with _ | ws
      · simp only [hs] at h
        simp only [hs]
        cases hj : jm m with
        | ok js =>
          simp only [hj, Except.ok.injEq] at h
          simp only [hj]
          subst h; rfl
        | error err =>
          simp only [hj] at h
          cases h
      · cases ws <;> simp only [hs] at h <;> simp only [hs] <;>
          first
          | (simp only [Except.ok.injEq] at h; subst h; rfl)
          | (cases hj : jm m with
             | ok js =>
               simp only [hj, Except.ok.injEq] at h
               simp only [hj]
               subst h; rfl
             | error err =>
               simp only [hj] at h
               cases h)
    · cases wb <;> simp only [hb] at h <;> simp only [hb] <;>
        first
        | (simp only [Except.ok.injEq] at h; subst h; rfl)
        | (rcases hs : mlookup m "string" with _ | ws
           · simp only [hs] at h
             simp only [hs]
             cases hj : jm m with
             | ok js =>
               simp only [hj, Except.ok.injEq] at h
               simp only [hj]
               subst h; rfl
             | error err =>
               simp only [hj] at h
               cases h
           · cases ws <;> simp only [hs] at h <;> simp only [hs] <;>
               first
               | (simp only [Except.ok.injEq] at h; subst h; rfl)
               | (cases hj : jm m with
                  | ok js =>
                    simp only [hj, Except.ok.injEq] at h
                    simp only [hj]
                    subst h; rfl
                  | error err =>
                    simp only [hj] at h
                    cases h))

/-- C3: on envelope decode, the payload is populated exactly as the spec
describes: a byte-sequence data slot as-is; a string slot's UTF-8 bytes; a
nested-map slot's wrapped "bytes" branch, else its wrapped "string" branch,
else the JSON re-serialization of the whole structure; any other shape
leaves the payload unset. -/
theorem fromAvro_data_population (jm : JsonM) (record : CloudEventRecord) (e : Event)
    (h : FromAvro jm record = .ok e) :
    e.dataEncoded = decodedDataSpec jm record.Data := by
  unfold FromAvro at h
  cases hfold : foldSteps decodeStep (requiredFields record) record.Attribute with
  | error err => rw [hfold] at h; cases h
  | ok e5 =>
    rw [hfold] at h
    have he5 : e5.dataEncoded = none := by
      rw [foldSteps_decode_dataEncoded _ _ _ hfold, requiredFields_dataEncoded]
    have := decodeData_result jm e5 record.Data e h
    rw [he5] at this
    rw [this]
    cases decodedDataSpec jm record.Data <;> rfl

/-- Witness for C3 at a concrete record whose data slot is a nested map
with neither a "bytes" nor a "string" branch, decoded with a concrete JSON
serializer. -/
theorem fromAvro_data_population_witness :
    FromAvro (fun _ => .ok [7, 8]) ⟨[], .mapW [("k", .boolW true)]⟩
        = .ok { eventNew with dataEncoded := some [7, 8] }
    ∧ ({ eventNew with dataEncoded := some [7, 8] } : Event).dataEncoded
        = decodedDataSpec (fun _ => .ok [7, 8]) (.mapW [("k", .boolW true)]) := by
  have h : FromAvro (fun _ => .ok [7, 8]) ⟨[], .mapW [("k", .boolW true)]⟩
      = .ok { eventNew with dataEncoded := some [7, 8] } := rfl
  exact ⟨h, fromAvro_data_population _ _ _ h⟩

theorem mlookup_unique {α : Type} (l : List (String × α)) (hnd : keysNodup l) (k : String)
    (v : α) (h : mlookup l k = some v) : ∀ p ∈ l, p.1 = k → p.2 = v := by
  induction l with
  | nil => simp
  | cons q rest ih =>
    have hnd' : keysNodup rest := by
      unfold keysNodup at hnd ⊢
      simp only [List.map_cons, List.nodup_cons] at hnd
      exact hnd.2
    have hqnotin : q.1 ∉ rest.map Prod.fst := by
      unfold keysNodup at hnd
      simp only [List.map_cons, List.nodup_cons] at hnd
      exact hnd.1
    intro p hp hpk
    rcases List.mem_cons.mp hp with hpq | hprest
    · subst hpq
      rw [mlookup, if_pos hpk] at h
      exact Option.some.inj h
    · by_cases hqk : q.1 = k
      · exfalso
        apply hqnotin
        rw [hqk, ← hpk]
        exact List.mem_map.mpr ⟨p, hprest, rfl⟩
      · rw [mlookup, if_neg hqk] at h
        exact ih hnd' h p hprest hpk

/-- A helper for comparing `requiredFields` on two records: the non-string
skipping only depends on the string view of each required lookup. -/
def strView (o : Option WireValue) : Option String :=
  match o with
  | some (.strW s) => some s
  | _ => none

theorem setIfStrW_strView (o1 o2 : Option WireValue) (f : String → Event) (e : Event)
    (hv : strView o1 = strView o2) : setIfStrW o1 f e = setIfStrW o2 f e := by
  rcases o1 with _ | w1 <;> rcases o2 with _ | w2 <;>
    first
    | rfl
    | (cases w1 <;> cases w2 <;> simp [strView, setIfStrW] at hv ⊢ <;>
        first | rfl | (rw [hv]))
    | (cases w1 <;> simp [strView, setIfStrW] at hv ⊢ <;> rfl)
    | (cases w2 <;> simp [strView, setIfStrW] at hv ⊢ <;> rfl)

theorem requiredFields_strView (r1 r2 : CloudEventRecord)
    (h1 : strView (mlookup r1.Attribute "specversion") = strView (mlookup r2.Attribute "specversion"))
    (h2 : strView (mlookup r1.Attribute "id") = strView (mlookup r2.Attribute "id"))
    (h3 : strView (mlookup r1.Attribute "source") = strView (mlookup r2.Attribute "source"))
    (h4 : strView (mlookup r1.Attribute "type") = strView (mlookup r2.Attribute "type")) :
    requiredFields r1 = requiredFields r2 := by
  simp only [requiredFields]
  rw [setIfStrW_strView _ _ _ _ h1, setIfStrW_strView _ _ _ _ h2,
    setIfStrW_strView _ _ _ _ h3, setIfStrW_strView _ _ _ _ h4]

/-- Whether a wire value is a Go `string`. -/
def isStrW : WireValue → Bool
  | .strW _ => true
  | _ => false

theorem strView_of_not_str (o : Option WireValue) (v : WireValue) (ho : o = some v)
    (hv : isStrW v = false) : strView o = none := by
  subst ho
  cases v <;> simp [strView] <;> simp [isStrW] at hv

/-- C8: on envelope decode, a required attribute entry whose value is not a
string is silently skipped: decoding the record is the same as decoding the
record with that entry removed, so the corresponding field keeps its
fresh-event value (empty, or the default "1.0" for specversion), the entry
does not become an extension, and no error arises from it. -/
theorem fromAvro_nonstring_required_skipped (jm : JsonM) (rec : CloudEventRecord)
    (name : String) (v : WireValue)
    (hname : name = "specversion" ∨ name = "id" ∨ name = "source" ∨ name = "type")
    (hv : mlookup rec.Attribute name = some v)
    (hnotstr : isStrW v = false) :
    FromAvro jm rec = FromAvro jm ⟨rec.Attribute.filter (fun p => p.1 ≠ name), rec.Data⟩ := by
  have hself : strView (mlookup (rec.Attribute.filter (fun p => p.1 ≠ name)) name) = none := by
    rw [mlookup_filter_self]
    rfl
  have hreq : requiredFields rec
      = requiredFields ⟨rec.Attribute.filter (fun p => p.1 ≠ name), rec.Data⟩ := by
    apply requiredFields_strView <;>
      rcases hname with h | h | h | h <;> subst h <;>
        first
        | (rw [strView_of_not_str _ _ hv hnotstr]; exact hself.symm)
        | (exact congrArg strView (mlookup_filter_other _ _ _ (by decide)).symm)
  have hfold : ∀ s : Event, foldSteps decodeStep s rec.Attribute
      = foldSteps decodeStep s (rec.Attribute.filter (fun p => p.1 ≠ name)) := by
    intro s
    apply foldSteps_filter_of_noop
    intro p hp hq s'
    have hpname : p.1 = name := by simpa using hq
    apply decodeStep_required
    rw [hpname]
    exact hname
  unfold FromAvro
  rw [hreq, hfold]

/-- Witness for C8: an integer-valued `id` entry decodes exactly as if the
entry were absent. -/
theorem fromAvro_nonstring_required_skipped_witness :
    mlookup [("id", WireValue.intW 5), ("source", WireValue.strW "s")] "id"
        = some (WireValue.intW 5)
    ∧ isStrW (WireValue.intW 5) = false
    ∧ FromAvro (fun _ => .ok []) ⟨[("id", .intW 5), ("source", .strW "s")], .nullW⟩
        = FromAvro (fun _ => .ok [])
            ⟨[("id", WireValue.intW 5), ("source", WireValue.strW "s")].filter
                (fun p => p.1 ≠ "id"), .nullW⟩ :=
  ⟨rfl, rfl, fromAvro_nonstring_required_skipped _ _ "id" _ (by simp) rfl rfl⟩

theorem decodeStep_optional_nonstring (e : Event) (k : String) (w : WireValue)
    (hname : k = "datacontenttype" ∨ k = "dataschema" ∨ k = "subject" ∨ k = "time")
    (hnotstr : isStrW w = false) : decodeStep e (k, w) = .ok e := by
  rcases hname with h | h | h | h <;> subst h <;>
    cases w <;> first | rfl | (simp [isStrW] at hnotstr)

/-- C10: on envelope decode, an optional reserved attribute entry
(datacontenttype, dataschema, subject, or time) whose value is not a string
is silently ignored: decoding the record is the same as decoding the record
with that entry removed — no error, the field stays unset, the entry is not
turned into an extension, and for the time key no parse is attempted. -/
theorem fromAvro_nonstring_optional_ignored (jm : JsonM) (rec : CloudEventRecord)
    (name : String) (v : WireValue)
    (hname : name = "datacontenttype" ∨ name = "dataschema" ∨ name = "subject" ∨ name = "time")
    (hnd : keysNodup rec.Attribute)
    (hv : mlookup rec.Attribute name = some v)
    (hnotstr : isStrW v = false) :
    FromAvro jm rec = FromAvro jm ⟨rec.Attribute.filter (fun p => p.1 ≠ name), rec.Data⟩ := by
  have hreq : requiredFields rec
      = requiredFields ⟨rec.Attribute.filter (fun p => p.1 ≠ name), rec.Data⟩ := by
    apply requiredFields_strView <;>
      exact congrArg strView (mlookup_filter_other _ _ _ (by
        rcases hname with h | h | h | h <;> subst h <;> decide)).symm
  have hfold : ∀ s : Event, foldSteps decodeStep s rec.Attribute
      = foldSteps decodeStep s (rec.Attribute.filter (fun p => p.1 ≠ name)) := by
    intro s
    apply foldSteps_filter_of_noop
    intro p hp hq s'
    have hpname : p.1 = name := by simpa using hq
    have hpv : p.2 = v := mlookup_unique _ hnd _ _ hv p hp hpname
    have : p = (name, v) := Prod.ext hpname hpv
    rw [this]
    exact decodeStep_optional_nonstring s' name v hname hnotstr
  unfold FromAvro
  rw [hreq, hfold]

/-- Witness for C10: a bytes-valued `time` entry decodes exactly as if the
entry were absent (no parse attempt, no error). -/
theorem fromAvro_nonstring_optional_ignored_witness :
    keysNodup [("id", WireValue.strW "i"), ("time", WireValue.bytesW [1])]
    ∧ mlookup [("id", WireValue.strW "i"), ("time", WireValue.bytesW [1])] "time"
        = some (WireValue.bytesW [1])
    ∧ isStrW (WireValue.bytesW [1]) = false
    ∧ FromAvro (fun _ => .ok []) ⟨[("id", .strW "i"), ("time", .bytesW [1])], .nullW⟩
        = FromAvro (fun _ => .ok [])
            ⟨[("id", WireValue.strW "i"), ("time", WireValue.bytesW [1])].filter
                (fun p => p.1 ≠ "time"), .nullW⟩ :=
  ⟨by unfold keysNodup; decide, rfl, rfl,
    fromAvro_nonstring_optional_ignored _ _ "time" _ (by simp)
      (by unfold keysNodup; decide) rfl rfl⟩

/-! ## Lookup structure of the encoded attribute map -/

theorem mlookup_withDct_other (e : Event) (l : List (String × WireValue)) (k : String)
    (h : k ≠ "datacontenttype") : mlookup (withDct e l) k = mlookup l k := by
  unfold withDct
  split_ifs
  · exact mlookup_mapSet_other _ _ _ _ h
  · rfl

theorem mlookup_withDataschema_other (e : Event) (l : List (String × WireValue)) (k : String)
    (h : k ≠ "dataschema") : mlookup (withDataschema e l) k = mlookup l k := by
  unfold withDataschema
  split_ifs
  · exact mlookup_mapSet_other _ _ _ _ h
  · rfl

theorem mlookup_withSubject_other (e : Event) (l : List (String × WireValue)) (k : String)
    (h : k ≠ "subject") : mlookup (withSubject e l) k = mlookup l k := by
  unfold withSubject
  split_ifs
  · exact mlookup_mapSet_other _ _ _ _ h
  · rfl

theorem mlookup_withTime_other (e : Event) (l : List (String × WireValue)) (k : String)
    (h : k ≠ "time") : mlookup (withTime e l) k = mlookup l k := by
  unfold withTime
  split_ifs
  · exact mlookup_mapSet_other _ _ _ _ h
  · rfl

theorem foldSteps_encode_lookup (exts : List (String × ExtValue)) :
    ∀ (acc attrs : List (String × WireValue)) (k : String),
    (∀ p ∈ exts, p.1 ≠ k) →
    foldSteps encodeStep acc exts = .ok attrs →
    mlookup attrs k = mlookup acc k := by
  induction exts with
  | nil =>
    intro acc attrs k _ h
    simp only [foldSteps, Except.ok.injEq] at h
    subst h; rfl
  | cons p ps ih =>
    intro acc attrs k hk h
    simp only [foldSteps] at h
    cases hstep : encodeStep acc p with
    | error err => rw [hstep] at h; cases h
    | ok acc' =>
      rw [hstep] at h
      have hacc' : mlookup acc' k = mlookup acc k := by
        unfold encodeStep at hstep
        cases hav : attributeValueFor p.2 with
        | error err => rw [hav] at hstep; cases hstep
        | ok av =>
          rw [hav] at hstep
          simp only [Except.ok.injEq] at hstep
          subst hstep
          exact mlookup_mapSet_other _ _ _ _ (fun hkp => hk p (by simp) hkp.symm)
      rw [ih acc' attrs k (fun q hq => hk q (by simp [hq])) h, hacc']

/-- C5: envelope encode writes an optional attribute only when it holds a
non-empty / non-zero value: the encoded record has a datacontenttype /
dataschema / subject key exactly when the event's field is non-empty (with
its string value), and a time key exactly when the event's timestamp is not
the zero time (with its RFC 3339 Nano string). -/
theorem toAvro_optional_omission (e : Event) (r : CloudEventRecord)
    (hext : ∀ p ∈ e.extensions, ¬(p.1 ∈ reservedNames))
    (henc : ToAvro e = .ok r) :
    mlookup r.Attribute "datacontenttype"
        = (if e.datacontenttype = "" then none else some (.strW e.datacontenttype))
    ∧ mlookup r.Attribute "dataschema"
        = (if e.dataschema = "" then none else some (.strW e.dataschema))
    ∧ mlookup r.Attribute "subject"
        = (if e.subject = "" then none else some (.strW e.subject))
    ∧ mlookup r.Attribute "time"
        = (if e.time = goTimeZero then none
           else some (.strW (formatRFC3339Nano e.time))) := by
  unfold ToAvro at henc
  cases hfold : foldSteps encodeStep (baseAttributes e) e.extensions with
  | error err => rw [hfold] at henc; cases henc
  | ok attrs =>
    rw [hfold] at henc
    simp only [Except.ok.injEq] at henc
    subst henc
    have hkey : ∀ k, k ∈ reservedNames →
        mlookup attrs k = mlookup (baseAttributes e) k := by
      intro k hkmem
      exact foldSteps_encode_lookup e.extensions _ _ k
        (fun p hp hpk => hext p hp (hpk ▸ hkmem)) hfold
    refine ⟨?_, ?_, ?_, ?_⟩
    · rw [hkey "datacontenttype" (by decide)]
      unfold baseAttributes
      rw [mlookup_withTime_other _ _ _ (by decide),
        mlookup_withSubject_other _ _ _ (by decide),
        mlookup_withDataschema_other _ _ _ (by decide)]
      unfold withDct
      split_ifs with hc hc2
      · rw [mlookup_mapSet_self]
      · unfold requiredAttributes
        simp [mlookup, mapSet]
      · exact absurd (not_not.mp hc) hc2
    · rw [hkey "dataschema" (by decide)]
      unfold baseAttributes
      rw [mlookup_withTime_other _ _ _ (by decide),
        mlookup_withSubject_other _ _ _ (by decide)]
      unfold withDataschema
      split_ifs with hc hc2
      · rw [mlookup_mapSet_self]
      · rw [mlookup_withDct_other _ _ _ (by decide)]
        unfold requiredAttributes
        simp [mlookup, mapSet]
      · exact absurd (not_not.mp hc) hc2
    · rw [hkey "subject" (by decide)]
      unfold baseAttributes
      rw [mlookup_withTime_other _ _ _ (by decide)]
      unfold withSubject
      split_ifs with hc hc2
      · rw [mlookup_mapSet_self]
      · rw [mlookup_withDataschema_other _ _ _ (by decide),
          mlookup_withDct_other _ _ _ (by decide)]
        unfold requiredAttributes
        simp [mlookup, mapSet]
      · exact absurd (not_not.mp hc) hc2
    · rw [hkey "time" (by decide)]
      unfold baseAttributes
      unfold withTime
      split_ifs with hc hc2
      · rw [mlookup_mapSet_self]
      · rw [mlookup_withSubject_other _ _ _ (by decide),
          mlookup_withDataschema_other _ _ _ (by decide),
          mlookup_withDct_other _ _ _ (by decide)]
        unfold requiredAttributes
        simp [mlookup, mapSet]
      · exact absurd (not_not.mp hc) hc2

/-- Witness for C5: an event with empty optional fields and the zero
timestamp encodes to a record without those keys; the same event with a
subject gets exactly the subject key. -/
theorem toAvro_optional_omission_witness :
    ∃ r, ToAvro { eventNew with id := "i", source := "s", typ := "t", subject := "sub" }
        = .ok r
      ∧ mlookup r.Attribute "datacontenttype" = none
      ∧ mlookup r.Attribute "dataschema" = none
      ∧ mlookup r.Attribute "subject" = some (.strW "sub")
      ∧ mlookup r.Attribute "time" = none := by
  have h : ToAvro { eventNew with id := "i", source := "s", typ := "t", subject := "sub" }
      = .ok ⟨[("specversion", .strW "1.0"), ("id", .strW "i"), ("source", .strW "s"),
              ("type", .strW "t"), ("subject", .strW "sub")], .nullW⟩ := by
    rfl
  obtain ⟨h1, h2, h3, h4⟩ := toAvro_optional_omission _ _ (by simp [eventNew]) h
  exact ⟨_, h, by simpa using h1, by simpa using h2, by simpa using h3, by simpa using h4⟩

/-! ## Encode failure on an unsupported extension type -/

/-- Whether `attributeValueFor` accepts a value. -/
def encodeOk (v : ExtValue) : Bool :=
  match attributeValueFor v with
  | .ok _ => true
  | .error _ => false

theorem encodeStep_ok_of_encodeOk (p : String × ExtValue) (h : encodeOk p.2 = true) :
    ∀ acc, ∃ acc', encodeStep acc p = .ok acc' := by
  intro acc
  unfold encodeOk at h
  unfold encodeStep
  cases hav : attributeValueFor p.2 with
  | error err => rw [hav] at h; cases h
  | ok av => exact ⟨_, rfl⟩

/-- C4: for every event carrying an extension whose dynamic value has a
runtime type outside the supported set (here a `float64`), and whose other
extensions are encodable, envelope encode fails with an error naming the
offending extension and stating its type. -/
theorem toAvro_unsupported_extension_fails (e : Event) (name : String)
    (hmem : (name, ExtValue.floatV) ∈ e.extensions)
    (hothers : ∀ p ∈ e.extensions, p ≠ (name, ExtValue.floatV) → encodeOk p.2 = true) :
    ToAvro e = .error ("failed to encode extension attribute " ++ name ++ ": "
      ++ "invalid CloudEvents value of type float64") := by
  unfold ToAvro
  rw [foldSteps_first_error encodeStep (name, ExtValue.floatV)
    ("failed to encode extension attribute " ++ name ++ ": "
      ++ "invalid CloudEvents value of type float64")
    (fun acc => rfl) e.extensions (baseAttributes e) hmem
    (fun y hy hne => encodeStep_ok_of_encodeOk y (hothers y hy hne))]

/-- Witness for C4: a concrete event with one boolean extension and one
float extension. -/
theorem toAvro_unsupported_extension_fails_witness :
    ToAvro { eventNew with
              id := "i", source := "s", typ := "t",
              extensions := [("flag", .boolV true), ("bad", .floatV)] }
      = .error "failed to encode extension attribute bad: invalid CloudEvents value of type float64" := by
  have h := toAvro_unsupported_extension_fails
    { eventNew with
        id := "i", source := "s", typ := "t",
        extensions := [("flag", .boolV true), ("bad", .floatV)] }
    "bad" (by simp) (by decide)
  simpa using h

/-! ## Decode-side extension handling -/

theorem decodeData_extensions (jm : JsonM) (e5 : Event) (d : WireValue) (e : Event)
    (h : decodeData jm e5 d = .ok e) : e.extensions = e5.extensions := by
  unfold decodeData at h
  repeat' split at h
  all_goals first
    | (simp only [Except.ok.injEq] at h; subst h; rfl)
    | (cases h)

theorem decodeStep_ext_lookup (s : Event) (p : String × WireValue) (s' : Event) (k : String)
    (hne : strLower p.1 ≠ k) (h : decodeStep s p = .ok s') :
    mlookup s'.extensions k = mlookup s.extensions k := by
  unfold decodeStep eventSetExtension at h
  repeat' split at h
  all_goals first
    | (simp only [Except.ok.injEq] at h
       subst h
       first
       | rfl
       | (exact mlookup_filter_other _ _ _ (Ne.symm hne))
       | (exact mlookup_mapSet_other _ _ _ _ (Ne.symm hne)))
    | (cases h)

theorem decode_fold_ext_untouched (k : String) (l : List (String × WireValue)) :
    ∀ (s e' : Event), foldSteps decodeStep s l = .ok e' →
    (∀ p ∈ l, strLower p.1 ≠ k) →
    mlookup e'.extensions k = mlookup s.extensions k := by
  induction l with
  | nil =>
    intro s e' h _
    simp only [foldSteps, Except.ok.injEq] at h
    subst h; rfl
  | cons p ps ih =>
    intro s e' h hne
    simp only [foldSteps] at h
    cases hstep : decodeStep s p with
    | error err => rw [hstep] at h; cases h
    | ok s1 =>
      rw [hstep] at h
      rw [ih s1 e' h (fun q hq => hne q (by simp [hq])),
        decodeStep_ext_lookup s p s1 k (hne p (by simp)) hstep]

theorem not_mem_reserved (name : String) (h : ¬ name ∈ reservedNames) :
    ¬(name = "specversion" ∨ name = "id" ∨ name = "source" ∨ name = "type")
    ∧ name ≠ "datacontenttype" ∧ name ≠ "dataschema" ∧ name ≠ "subject" ∧ name ≠ "time" := by
  simp only [reservedNames, List.mem_cons, List.mem_singleton, List.not_mem_nil] at h
  push_neg at h
  obtain ⟨h1, h2, h3, h4, h5, h6, h7, h8⟩ := by
    simpa using h
  exact ⟨by tauto, h5, h6, h7, h8⟩

/-- `FromAvro`'s loop on a non-reserved name is exactly the extension
branch. -/
theorem decodeStep_extension (s : Event) (name : String) (w : WireValue)
    (h : ¬ name ∈ reservedNames) :
    decodeStep s (name, w)
      = match extensionValueFrom w with
        | .error err => .error ("failed to convert extension " ++ name ++ ": " ++ err)
        | .ok v => .ok (eventSetExtension s name v) := by
  obtain ⟨hreq, hdct, hds, hsub, htime⟩ := not_mem_reserved name h
  unfold decodeStep
  rw [if_neg hreq, if_neg hdct, if_neg hds, if_neg hsub, if_neg htime]

/-- An attribute entry `FromAvro`'s loop is guaranteed to process without an
error, whatever the current event state. -/
def decodeBenign (p : String × WireValue) : Bool :=
  if p.1 = "specversion" ∨ p.1 = "id" ∨ p.1 = "source" ∨ p.1 = "type" then true
  else if p.1 = "datacontenttype" then true
  else if p.1 = "dataschema" then true
  else if p.1 = "subject" then true
  else if p.1 = "time" then
    match p.2 with
    | .strW s => (parseRFC3339 s).isSome
    | _ => true
  else
    match extensionValueFrom p.2 with
    | .ok _ => true
    | .error _ => false

theorem decodeBenign_step (p : String × WireValue) (h : decodeBenign p = true) :
    ∀ s : Event, ∃ s', decodeStep s p = .ok s' := by
  obtain ⟨pn, pv⟩ := p
  intro s
  unfold decodeBenign at h
  unfold decodeStep
  dsimp only at h ⊢
  split_ifs at h ⊢
  · exact ⟨s, rfl⟩
  · cases pv <;> exact ⟨_, rfl⟩
  · cases pv <;> exact ⟨_, rfl⟩
  · cases pv <;> exact ⟨_, rfl⟩
  · cases pv <;> try exact ⟨s, rfl⟩
    rename_i sv
    dsimp only at h ⊢
    cases hp : parseRFC3339 sv with
    | some t => exact ⟨_, rfl⟩
    | none =>
      rw [hp] at h
      simp at h
  · cases hev : extensionValueFrom pv with
    | ok v => exact ⟨_, rfl⟩
    | error err =>
      rw [hev] at h
      cases h

/-- C6: on envelope decode, a signed integer attribute value of any width
collapses to a 32-bit integer extension value (with Go's truncating
conversion), this collapsed value is what the decoded event stores for the
extension, and an extension attribute of an unsupported dynamic type makes
decode fail with an error naming the attribute. -/
theorem fromAvro_extension_int_collapse_and_unsupported :
    (∀ n : Int, extensionValueFrom (.intW n) = .ok (some (.intV (wrap32 n))))
    ∧ (∀ n : Int, extensionValueFrom (.int32W n) = .ok (some (.intV n)))
    ∧ (∀ n : Int, extensionValueFrom (.int64W n) = .ok (some (.intV (wrap32 n))))
    ∧ (∀ (jm : JsonM) (rec : CloudEventRecord) (name : String) (w : WireValue)
        (val : ExtValue) (e' : Event),
        (∀ p ∈ rec.Attribute, strLower p.1 = p.1) → keysNodup rec.Attribute →
        ¬ name ∈ reservedNames → mlookup rec.Attribute name = some w →
        extensionValueFrom w = .ok (some val) → FromAvro jm rec = .ok e' →
        mlookup e'.extensions name = some val)
    ∧ (∀ (jm : JsonM) (rec : CloudEventRecord) (name : String) (w : WireValue)
        (inner : String),
        (name, w) ∈ rec.Attribute → ¬ name ∈ reservedNames →
        extensionValueFrom w = .error inner →
        (∀ p ∈ rec.Attribute, p ≠ (name, w) → decodeBenign p = true) →
        FromAvro jm rec
          = .error ("failed to convert extension " ++ name ++ ": " ++ inner)) := by
  refine ⟨fun n => rfl, fun n => rfl, fun n => rfl, ?_, ?_⟩
  · intro jm rec name w val e' hlc hnd hres hv hw hok
    obtain ⟨l1, l2, heq, hne1⟩ := mlookup_eq_some_split _ _ _ hv
    have hmem : (name, w) ∈ rec.Attribute := by
      rw [heq]
      simp
    have hlcname : strLower name = name := hlc (name, w) hmem
    unfold FromAvro at hok
    cases hfold : foldSteps decodeStep (requiredFields rec) rec.Attribute with
    | error err => rw [hfold] at hok; cases hok
    | ok e5 =>
      rw [hfold] at hok
      have hex : e'.extensions = e5.extensions := decodeData_extensions _ _ _ _ hok
      rw [hex]
      rw [heq, foldSteps_append] at hfold
      cases hf1 : foldSteps decodeStep (requiredFields rec) l1 with
      | error err => rw [hf1] at hfold; cases hfold
      | ok s1 =>
        rw [hf1] at hfold
        simp only [foldSteps] at hfold
        have hstep : decodeStep s1 (name, w) = .ok (eventSetExtension s1 name (some val)) := by
          rw [decodeStep_extension s1 name w hres, hw]
        rw [hstep] at hfold
        have hset : mlookup (eventSetExtension s1 name (some val)).extensions name
            = some val := by
          unfold eventSetExtension
          simp only
          rw [hlcname]
          exact mlookup_mapSet_self _ _ _
        have hl2 : ∀ p ∈ l2, strLower p.1 ≠ name := by
          intro p hp
          rw [hlc p (by rw [heq]; simp [hp])]
          exact keysNodup_split l1 l2 name w (heq ▸ hnd) p hp
        rw [decode_fold_ext_untouched name l2 _ e5 hfold hl2, hset]
  · intro jm rec name w inner hmem hres hw hben
    unfold FromAvro
    rw [foldSteps_first_error decodeStep (name, w)
      ("failed to convert extension " ++ name ++ ": " ++ inner)
      (fun s => by rw [decodeStep_extension s name w hres, hw])
      rec.Attribute (requiredFields rec) hmem
      (fun y hy hne => decodeBenign_step y (hben y hy hne))]

/-- Witness for C6: a 64-bit integer extension attribute (2^31) decodes to
the wrapped 32-bit value -2^31, and a map-valued extension attribute makes
decode fail naming the attribute. -/
theorem fromAvro_extension_int_collapse_and_unsupported_witness :
    FromAvro (fun _ => .ok [])
        ⟨[("specversion", .strW "1.0"), ("count", .int64W 2147483648)], .nullW⟩
      = .ok { eventNew with extensions := [("count", .intV (-2147483648))] }
    ∧ mlookup ({ eventNew with
        extensions := [("count", ExtValue.intV (-2147483648))] } : Event).extensions "count"
      = some (.intV (-2147483648))
    ∧ FromAvro (fun _ => .ok [])
        ⟨[("specversion", .strW "1.0"), ("bad", .mapW [])], .nullW⟩
      = .error "failed to convert extension bad: unsupported attribute type: map[string]interface {}" := by
  have hok : FromAvro (fun _ => .ok [])
      ⟨[("specversion", .strW "1.0"), ("count", .int64W 2147483648)], .nullW⟩
      = .ok { eventNew with extensions := [("count", .intV (-2147483648))] } := by rfl
  refine ⟨hok, ?_, ?_⟩
  · exact fromAvro_extension_int_collapse_and_unsupported.2.2.2.1
      (fun _ => .ok []) ⟨[("specversion", .strW "1.0"), ("count", .int64W 2147483648)], .nullW⟩
      "count" (.int64W 2147483648) (.intV (-2147483648)) _
      (by decide) (by unfold keysNodup; decide) (by decide) rfl rfl hok
  · have herr := fromAvro_extension_int_collapse_and_unsupported.2.2.2.2
      (fun _ => .ok []) ⟨[("specversion", .strW "1.0"), ("bad", .mapW [])], .nullW⟩
      "bad" (.mapW []) "unsupported attribute type: map[string]interface \x7b\x7d"
      (by simp) (by decide) rfl
      (by
        intro p hp hne
        rcases List.mem_cons.mp hp with h | h
        · subst h
          rfl
        · rcases List.mem_cons.mp h with h2 | h2
          · exact absurd h2 hne
          · simp at h2)
    simpa using herr

/-! ## The encode/decode round trip (C1)

`extSupported` singles out the extension values of the supported CloudEvents
scalar types; `extWire` is the wire value `attributeValueFor` produces for
them, and `coerceExt` the value that comes back after one decode — the "one
coercion round-trip" of the spec (URIs, URI-references and timestamps come
back as their string forms, integers as wrapped 32-bit integers). -/

def extSupported : ExtValue → Bool
  | .floatV => false
  | _ => true

def extWire : ExtValue → WireValue
  | .boolV b => .boolW b
  | .intV n => .intW n
  | .strV s => .strW s
  | .bytesV bs => .bytesW bs
  | .uriV s => .strW s
  | .uriRefV s => .strW s
  | .timeV t => .strW (formatRFC3339Nano t)
  | .floatV => .nullW

def coerceExt : ExtValue → ExtValue
  | .boolV b => .boolV b
  | .intV n => .intV (wrap32 n)
  | .strV s => .strV s
  | .bytesV bs => .bytesV bs
  | .uriV s => .strV s
  | .uriRefV s => .strV s
  | .timeV t => .strV (formatRFC3339Nano t)
  | .floatV => .floatV

theorem attributeValueFor_supported (v : ExtValue) (h : extSupported v = true) :
    attributeValueFor v = .ok (extWire v) := by
  cases v <;> first | rfl | (simp [extSupported] at h)

theorem extensionValueFrom_extWire (v : ExtValue) (h : extSupported v = true) :
    extensionValueFrom (extWire v) = .ok (some (coerceExt v)) := by
  cases v <;> first | rfl | (simp [extSupported] at h)

theorem foldSteps_encode_ok (exts : List (String × ExtValue)) :
    ∀ acc : List (String × WireValue),
    (∀ p ∈ exts, extSupported p.2 = true) →
    (∀ p ∈ exts, mlookup acc p.1 = none) →
    keysNodup exts →
    foldSteps encodeStep acc exts
      = .ok (acc ++ exts.map (fun p => (p.1, extWire p.2))) := by
  induction exts with
  | nil =>
    intro acc _ _ _
    simp [foldSteps]
  | cons p ps ih =>
    intro acc hsupp hfresh hnd
    have hav : attributeValueFor p.2 = .ok (extWire p.2) :=
      attributeValueFor_supported _ (hsupp p (by simp))
    have hstep : encodeStep acc p = .ok (mapSet acc p.1 (extWire p.2)) := by
      unfold encodeStep
      rw [hav]
    have hnd' : keysNodup ps := by
      unfold keysNodup at hnd ⊢
      simp only [List.map_cons, List.nodup_cons] at hnd
      exact hnd.2
    have hpnotin : p.1 ∉ ps.map Prod.fst := by
      unfold keysNodup at hnd
      simp only [List.map_cons, List.nodup_cons] at hnd
      exact hnd.1
    have hfresh' : ∀ q ∈ ps, mlookup (acc ++ [(p.1, extWire p.2)]) q.1 = none := by
      intro q hq
      rw [mlookup_append]
      rw [hfresh q (by simp [hq])]
      have hne : ¬(p.1 = q.1) := by
        intro hc
        exact hpnotin (hc ▸ List.mem_map.mpr ⟨q, hq, rfl⟩)
      simp [mlookup, hne]
    have hrest := ih (acc ++ [(p.1, extWire p.2)])
      (fun q hq => hsupp q (by simp [hq])) hfresh' hnd'
    simp only [foldSteps]
    rw [hstep, mapSet_eq_append _ _ _ (hfresh p (by simp))]
    simp only [hrest]
    rw [List.append_assoc]
    rfl

theorem foldSteps_decode_ext (exts : List (String × ExtValue)) :
    ∀ s : Event,
    (∀ p ∈ exts, ¬ p.1 ∈ reservedNames ∧ strLower p.1 = p.1 ∧ extSupported p.2 = true) →
    (∀ p ∈ exts, mlookup s.extensions p.1 = none) →
    keysNodup exts →
    foldSteps decodeStep s (exts.map (fun p => (p.1, extWire p.2)))
      = .ok { s with extensions :=
          s.extensions ++ exts.map (fun p => (p.1, coerceExt p.2)) } := by
  induction exts with
  | nil =>
    intro s _ _ _
    simp [foldSteps]
  | cons p ps ih =>
    intro s hgood hfresh hnd
    obtain ⟨hres, hlc, hsupp⟩ := hgood p (by simp)
    have hstep : decodeStep s (p.1, extWire p.2)
        = .ok { s with extensions := s.extensions ++ [(p.1, coerceExt p.2)] } := by
      rw [decodeStep_extension s p.1 (extWire p.2) hres,
        extensionValueFrom_extWire p.2 hsupp]
      unfold eventSetExtension
      simp only
      rw [hlc, mapSet_eq_append _ _ _ (hfresh p (by simp))]
    have hnd' : keysNodup ps := by
      unfold keysNodup at hnd ⊢
      simp only [List.map_cons, List.nodup_cons] at hnd
      exact hnd.2
    have hpnotin : p.1 ∉ ps.map Prod.fst := by
      unfold keysNodup at hnd
      simp only [List.map_cons, List.nodup_cons] at hnd
      exact hnd.1
    have hfresh' : ∀ q ∈ ps,
        mlookup ({ s with extensions := s.extensions ++ [(p.1, coerceExt p.2)] }
          : Event).extensions q.1 = none := by
      intro q hq
      simp only
      rw [mlookup_append, hfresh q (by simp [hq])]
      have hne : ¬(p.1 = q.1) := by
        intro hc
        exact hpnotin (hc ▸ List.mem_map.mpr ⟨q, hq, rfl⟩)
      simp [mlookup, hne]
    have hrest := ih { s with extensions := s.extensions ++ [(p.1, coerceExt p.2)] }
      (fun q hq => hgood q (by simp [hq])) hfresh' hnd'
    simp only [List.map_cons, foldSteps]
    rw [hstep]
    simp only [hrest]
    simp only [List.append_assoc, List.singleton_append]

/-! The attribute map `ToAvro` builds, viewed as a concatenation of
segments, and the effect of `FromAvro`'s loop on each segment. -/

def dctSeg (e : Event) : List (String × WireValue) :=
  if e.datacontenttype ≠ "" then [("datacontenttype", .strW e.datacontenttype)] else []

def dsSeg (e : Event) : List (String × WireValue) :=
  if e.dataschema ≠ "" then [("dataschema", .strW e.dataschema)] else []

def subjSeg (e : Event) : List (String × WireValue) :=
  if e.subject ≠ "" then [("subject", .strW e.subject)] else []

def timeSeg (e : Event) : List (String × WireValue) :=
  if e.time ≠ goTimeZero then [("time", .strW (formatRFC3339Nano e.time))] else []

theorem requiredAttributes_eq (e : Event) :
    requiredAttributes e
      = [("specversion", .strW e.specversion), ("id", .strW e.id),
         ("source", .strW e.source), ("type", .strW e.typ)] := rfl

theorem withDct_append (e : Event) (l : List (String × WireValue))
    (h : mlookup l "datacontenttype" = none) : withDct e l = l ++ dctSeg e := by
  unfold withDct dctSeg
  split_ifs
  · exact mapSet_eq_append _ _ _ h
  · rw [List.append_nil]

theorem withDataschema_append (e : Event) (l : List (String × WireValue))
    (h : mlookup l "dataschema" = none) : withDataschema e l = l ++ dsSeg e := by
  unfold withDataschema dsSeg
  split_ifs
  · exact mapSet_eq_append _ _ _ h
  · rw [List.append_nil]

theorem withSubject_append (e : Event) (l : List (String × WireValue))
    (h : mlookup l "subject" = none) : withSubject e l = l ++ subjSeg e := by
  unfold withSubject subjSeg
  split_ifs
  · exact mapSet_eq_append _ _ _ h
  · rw [List.append_nil]

theorem withTime_append (e : Event) (l : List (String × WireValue))
    (h : mlookup l "time" = none) : withTime e l = l ++ timeSeg e := by
  unfold withTime timeSeg
  split_ifs
  · exact mapSet_eq_append _ _ _ h
  · rw [List.append_nil]

theorem mlookup_dctSeg_other (e : Event) (k : String) (h : ¬(k = "datacontenttype")) :
    mlookup (dctSeg e) k = none := by
  unfold dctSeg
  split_ifs
  · simp [mlookup, Ne.symm h]
  · rfl

theorem mlookup_dsSeg_other (e : Event) (k : String) (h : ¬(k = "dataschema")) :
    mlookup (dsSeg e) k = none := by
  unfold dsSeg
  split_ifs
  · simp [mlookup, Ne.symm h]
  · rfl

theorem mlookup_subjSeg_other (e : Event) (k : String) (h : ¬(k = "subject")) :
    mlookup (subjSeg e) k = none := by
  unfold subjSeg
  split_ifs
  · simp [mlookup, Ne.symm h]
  · rfl

theorem mlookup_timeSeg_other (e : Event) (k : String) (h : ¬(k = "time")) :
    mlookup (timeSeg e) k = none := by
  unfold timeSeg
  split_ifs
  · simp [mlookup, Ne.symm h]
  · rfl

theorem baseAttributes_eq (e : Event) :
    baseAttributes e
      = requiredAttributes e
          ++ (dctSeg e ++ (dsSeg e ++ (subjSeg e ++ timeSeg e))) := by
  unfold baseAttributes
  have h1 : mlookup (requiredAttributes e) "datacontenttype" = none := rfl
  rw [withDct_append e _ h1]
  have h2 : mlookup (requiredAttributes e ++ dctSeg e) "dataschema" = none := by
    have hr : mlookup (requiredAttributes e) "dataschema" = none := rfl
    simp only [mlookup_append, hr, mlookup_dctSeg_other e "dataschema" (by decide)]
  rw [withDataschema_append e _ h2]
  have h3 : mlookup ((requiredAttributes e ++ dctSeg e) ++ dsSeg e) "subject" = none := by
    have hr : mlookup (requiredAttributes e) "subject" = none := rfl
    simp only [mlookup_append, hr, mlookup_dctSeg_other e "subject" (by decide),
      mlookup_dsSeg_other e "subject" (by decide)]
  rw [withSubject_append e _ h3]
  have h4 : mlookup (((requiredAttributes e ++ dctSeg e) ++ dsSeg e) ++ subjSeg e)
      "time" = none := by
    have hr : mlookup (requiredAttributes e) "time" = none := rfl
    simp only [mlookup_append, hr, mlookup_dctSeg_other e "time" (by decide),
      mlookup_dsSeg_other e "time" (by decide), mlookup_subjSeg_other e "time" (by decide)]
  rw [withTime_append e _ h4]
  simp [List.append_assoc]

/-! The state transformations `FromAvro`'s loop performs on the optional
segments. -/

def applyDct (e s : Event) : Event :=
  if e.datacontenttype ≠ "" then { s with datacontenttype := e.datacontenttype } else s

def applyDs (e s : Event) : Event :=
  if e.dataschema ≠ "" then { s with dataschema := e.dataschema } else s

def applySubj (e s : Event) : Event :=
  if e.subject ≠ "" then { s with subject := e.subject } else s

def applyTime (e s : Event) : Event :=
  if e.time ≠ goTimeZero then { s with time := e.time } else s

theorem fold_dctSeg (e s : Event) :
    foldSteps decodeStep s (dctSeg e) = .ok (applyDct e s) := by
  unfold dctSeg applyDct
  split_ifs <;> rfl

theorem fold_dsSeg (e s : Event) :
    foldSteps decodeStep s (dsSeg e) = .ok (applyDs e s) := by
  unfold dsSeg applyDs
  split_ifs <;> rfl

theorem fold_subjSeg (e s : Event) :
    foldSteps decodeStep s (subjSeg e) = .ok (applySubj e s) := by
  unfold subjSeg applySubj
  split_ifs <;> rfl

theorem fold_timeSeg (e s : Event) (hWF : e.time ≠ goTimeZero → WFTime e.time) :
    foldSteps decodeStep s (timeSeg e) = .ok (applyTime e s) := by
  unfold timeSeg applyTime
  split_ifs with hc
  · have hstep : decodeStep s ("time", .strW (formatRFC3339Nano e.time))
        = .ok { s with time := e.time } := by
      unfold decodeStep
      simp only [String.reduceEq, or_self, if_false, if_true, reduceIte]
      rw [parse_format_roundTrip e.time (hWF hc)]
    simp only [foldSteps]
    rw [hstep]
  · rfl

theorem mlookup_requiredAttributes_none (e : Event) (name : String)
    (h1 : name ≠ "specversion") (h2 : name ≠ "id") (h3 : name ≠ "source")
    (h4 : name ≠ "type") : mlookup (requiredAttributes e) name = none := by
  rw [requiredAttributes_eq]
  simp [mlookup, Ne.symm h1, Ne.symm h2, Ne.symm h3, Ne.symm h4]

theorem mlookup_base_none (e : Event) (name : String) (h : ¬ name ∈ reservedNames) :
    mlookup (baseAttributes e) name = none := by
  obtain ⟨hreq, hdct, hds, hsub, htime⟩ := not_mem_reserved name h
  push_neg at hreq
  obtain ⟨h1, h2, h3, h4⟩ := hreq
  have hreqN : mlookup (requiredAttributes e) name = none :=
    mlookup_requiredAttributes_none e name h1 h2 h3 h4
  rw [baseAttributes_eq]
  simp only [mlookup_append, hreqN, mlookup_dctSeg_other e name hdct,
    mlookup_dsSeg_other e name hds, mlookup_subjSeg_other e name hsub,
    mlookup_timeSeg_other e name htime]

/-- C1: for every event whose extensions hold supported scalar values under
lowercase non-reserved distinct names and whose timestamp is absent or
RFC 3339-representable, decoding the record produced by the envelope encode
reproduces every required field exactly, every optional field exactly (the
timestamp as the same instant), the payload bytes exactly, and every
extension value after one coercion round-trip (`coerceExt`: URIs and
URI-references come back as their absolute-string forms, timestamps as
their RFC 3339 Nano strings, integers as 32-bit integers). -/
theorem toAvro_fromAvro_roundTrip (jm : JsonM) (e : Event)
    (hnames : ∀ p ∈ e.extensions, ¬ p.1 ∈ reservedNames ∧ strLower p.1 = p.1)
    (hnodup : keysNodup e.extensions)
    (hsupp : ∀ p ∈ e.extensions, extSupported p.2 = true)
    (htime : e.time = goTimeZero ∨ WFTime e.time) :
    ∃ r e', ToAvro e = .ok r ∧ FromAvro jm r = .ok e'
      ∧ e'.specversion = e.specversion ∧ e'.id = e.id ∧ e'.source = e.source
      ∧ e'.typ = e.typ ∧ e'.datacontenttype = e.datacontenttype
      ∧ e'.dataschema = e.dataschema ∧ e'.subject = e.subject ∧ e'.time = e.time
      ∧ e'.dataEncoded = e.dataEncoded
      ∧ e'.extensions = e.extensions.map (fun p => (p.1, coerceExt p.2)) := by
  have hWF : e.time ≠ goTimeZero → WFTime e.time := by
    intro hz
    rcases htime with h | h
    · exact absurd h hz
    · exact h
  -- the encoded record
  have hfreshB : ∀ p ∈ e.extensions, mlookup (baseAttributes e) p.1 = none :=
    fun p hp => mlookup_base_none e p.1 (hnames p hp).1
  have henc : foldSteps encodeStep (baseAttributes e) e.extensions
      = .ok (baseAttributes e ++ e.extensions.map (fun p => (p.1, extWire p.2))) :=
    foldSteps_encode_ok e.extensions (baseAttributes e)
      (fun p hp => hsupp p hp) hfreshB hnodup
  have hToAvro : ToAvro e
      = .ok ⟨baseAttributes e ++ e.extensions.map (fun p => (p.1, extWire p.2)),
             match e.dataEncoded with
             | some bs => .bytesW bs
             | none => .nullW⟩ := by
    unfold ToAvro
    rw [henc]
  -- the required lookups on the encoded attribute map
  have hbv : mlookup (baseAttributes e) "specversion" = some (.strW e.specversion) := by
    rw [baseAttributes_eq]; rfl
  have hbi : mlookup (baseAttributes e) "id" = some (.strW e.id) := by
    rw [baseAttributes_eq]; rfl
  have hbs : mlookup (baseAttributes e) "source" = some (.strW e.source) := by
    rw [baseAttributes_eq]; rfl
  have hbt : mlookup (baseAttributes e) "type" = some (.strW e.typ) := by
    rw [baseAttributes_eq]; rfl
  set attrsE := baseAttributes e ++ e.extensions.map (fun p => (p.1, extWire p.2))
    with hattrsE
  have hav : mlookup attrsE "specversion" = some (.strW e.specversion) := by
    rw [hattrsE]
    simp only [mlookup_append, hbv]
  have hai : mlookup attrsE "id" = some (.strW e.id) := by
    rw [hattrsE]
    simp only [mlookup_append, hbi]
  have has : mlookup attrsE "source" = some (.strW e.source) := by
    rw [hattrsE]
    simp only [mlookup_append, hbs]
  have hat : mlookup attrsE "type" = some (.strW e.typ) := by
    rw [hattrsE]
    simp only [mlookup_append, hbt]
  -- the required-fields stage of the decode
  set dataw : WireValue := (match e.dataEncoded with
    | some bs => .bytesW bs
    | none => .nullW) with hdataw
  set s0 : Event :=
    { eventNew with
                specversion := e.specversion, id := e.id,
                source := e.source, typ := e.typ } with hs0def
  have hs0 : requiredFields ⟨attrsE, dataw⟩ = s0 := by
    simp only [requiredFields, hav, hai, has, hat, setIfStrW]
  -- the decode loop over the base segments
  set eB : Event :=
    { eventNew with
                specversion := e.specversion, id := e.id,
                source := e.source, typ := e.typ,
                datacontenttype := e.datacontenttype,
                dataschema := e.dataschema, subject := e.subject,
                time := e.time } with heBdef
  have hreqfold : foldSteps decodeStep s0 (requiredAttributes e) = .ok s0 := rfl
  have hsegfold : foldSteps decodeStep s0 (dctSeg e ++ (dsSeg e ++ (subjSeg e ++ timeSeg e)))
      = .ok (applyTime e (applySubj e (applyDs e (applyDct e s0)))) := by
    simp only [foldSteps_append, fold_dctSeg, fold_dsSeg, fold_subjSeg]
    rw [fold_timeSeg e _ hWF]
  have happly : applyTime e (applySubj e (applyDs e (applyDct e s0))) = eB := by
    unfold applyTime applySubj applyDs applyDct
    rw [hs0def, heBdef]
    split_ifs with h1 h2 h3 h4 <;> simp_all [eventNew, not_not]
  have hbasefold : foldSteps decodeStep s0 (baseAttributes e) = .ok eB := by
    rw [baseAttributes_eq]
    simp only [foldSteps_append, hreqfold, hsegfold, happly]
  -- the decode loop over the encoded extensions
  have hextfold : foldSteps decodeStep eB
      (e.extensions.map (fun p => (p.1, extWire p.2)))
      = .ok { eB with
                extensions := e.extensions.map (fun p => (p.1, coerceExt p.2)) } := by
    have h := foldSteps_decode_ext e.extensions eB
      (fun p hp => ⟨(hnames p hp).1, (hnames p hp).2, hsupp p hp⟩)
      (fun p hp => rfl) hnodup
    simpa using h
  have hfold : foldSteps decodeStep (requiredFields ⟨attrsE, dataw⟩) attrsE
      = .ok { eB with
                extensions := e.extensions.map (fun p => (p.1, coerceExt p.2)) } := by
    rw [hs0, hattrsE]
    simp only [foldSteps_append, hbasefold, hextfold]
  -- the payload stage and assembly
  cases hdata : e.dataEncoded with
  | some bs =>
    refine ⟨⟨attrsE, dataw⟩,
      { eB with
                extensions := e.extensions.map (fun p => (p.1, coerceExt p.2)),
                dataEncoded := some bs },
      hToAvro, ?_, rfl, rfl, rfl, rfl, rfl, rfl, rfl, rfl, ?_, rfl⟩
    · unfold FromAvro
      rw [hfold]
      have : dataw = .bytesW bs := by rw [hdataw, hdata]
      rw [this]
      rfl
    · simp [hdata]
  | none =>
    refine ⟨⟨attrsE, dataw⟩,
      { eB with
                extensions := e.extensions.map (fun p => (p.1, coerceExt p.2)) },
      hToAvro, ?_, rfl, rfl, rfl, rfl, rfl, rfl, rfl, rfl, ?_, rfl⟩
    · unfold FromAvro
      rw [hfold]
      have : dataw = .nullW := by rw [hdataw, hdata]
      rw [this]
      rfl
    · simp [hdata, heBdef, eventNew]

/-- A concrete event exercising every supported extension scalar type, all
optional attributes and a payload (mirroring the repository's
`TestAvroFormatWithAllAttributes`). -/
def roundTripSample : Event :=
  { eventNew with
              id := "i", source := "s", typ := "t",
              datacontenttype := "application/json", dataschema := "ds",
              subject := "subj",
              time := ⟨2021, 1, 1, 1, 1, 1, 1, 0⟩,
              extensions := [("test", .strV "test"), ("int", .intV 1),
                ("bool", .boolV true), ("uri", .uriV "https://test-uri.com"),
                ("uriref", .uriRefV "https://test-uriref.com"),
                ("bytes", .bytesV [116, 101]),
                ("timestamp", .timeV ⟨2021, 2, 1, 1, 1, 1, 1, 0⟩)],
              dataEncoded := some [34, 102, 111, 111, 34] }

/-- Witness for C1 at `roundTripSample`. -/
theorem toAvro_fromAvro_roundTrip_witness :
    ∃ r e', ToAvro roundTripSample = .ok r
      ∧ FromAvro (fun _ => .ok []) r = .ok e'
      ∧ e'.specversion = roundTripSample.specversion
      ∧ e'.id = roundTripSample.id ∧ e'.source = roundTripSample.source
      ∧ e'.typ = roundTripSample.typ
      ∧ e'.datacontenttype = roundTripSample.datacontenttype
      ∧ e'.dataschema = roundTripSample.dataschema
      ∧ e'.subject = roundTripSample.subject ∧ e'.time = roundTripSample.time
      ∧ e'.dataEncoded = roundTripSample.dataEncoded
      ∧ e'.extensions
          = roundTripSample.extensions.map (fun p => (p.1, coerceExt p.2)) :=
  toAvro_fromAvro_roundTrip (fun _ => .ok []) roundTripSample
    (by decide) (by unfold keysNodup; decide) (by decide)
    (Or.inr (by decide))

end AvroCE
